import Mathlib

/-!
Verification development for the DeepSearch hybrid-retrieval micro-service
(`pysearch_service.py`).  The Python source is shallowly embedded: pure
functions become Lean functions over `List Char`, `String`, `List ℚ`;
the module-level mutable index becomes an explicit `Snapshot` value; the
read-only Postgres store becomes an explicit `Store` value and fallible
store access returns `Except`.  Floating-point arithmetic is modelled by
exact rationals.  Calls into external numeric libraries whose results are
irrational or opaque (square roots inside `np.std` / `math.sqrt`, the
rapidfuzz similarity ratios, the BM25 and TF-IDF backends produced by
`rank_bm25`/`sklearn`) are modelled as parameters (`NumBackend`,
`Backends`): every theorem below either holds for all instantiations or
is stated at an explicitly chosen instantiation.
-/

namespace PySearch

/- Batteries marks the `Rat` arithmetic operations `[irreducible]` — an
elaboration-performance hint only, which blocks `decide` from evaluating
concrete rational computations in the elaborator.  Restoring the default
reducibility lets the concrete fixtures below be checked by evaluation; the
kernel (which ignores reducibility hints) checks the same terms either way,
with no change to any definition or axiom. -/
set_option allowUnsafeReducibility true in
attribute [semireducible] Rat.add Rat.mul Rat.sub Rat.inv Rat.ofScientific

/-! ### Characters: Python `str.lower`, `unidecode`, `\w`, `\s` -/

/-- Accented lower-case Latin letters occurring in the service's constants,
with their `unidecode` foldings. -/
def accentLower : List (Char × Char) :=
  [('é','e'),('è','e'),('ê','e'),('ë','e'),('à','a'),('â','a'),('ä','a'),
   ('î','i'),('ï','i'),('ô','o'),('ö','o'),('ù','u'),('û','u'),('ü','u'),('ç','c')]

/-- Upper-case accented letters with their Python `str.lower` images. -/
def accentUpper : List (Char × Char) :=
  [('É','é'),('È','è'),('Ê','ê'),('Ë','ë'),('À','à'),('Â','â'),('Ä','ä'),
   ('Î','î'),('Ï','ï'),('Ô','ô'),('Ö','ö'),('Ù','ù'),('Û','û'),('Ü','ü'),('Ç','ç')]

def lookupChar (t : List (Char × Char)) (c : Char) : Option Char :=
  (t.find? (fun p => p.1 == c)).map (fun p => p.2)

/-- Python regex word character (`\w`, Unicode-aware): ASCII alphanumerics,
underscore, and the accented Latin letters modelled here. -/
def isWordChar (c : Char) : Bool :=
  c.isAlphanum || c == '_' ||
    (lookupChar accentLower c).isSome || (lookupChar accentUpper c).isSome

/-- Python regex whitespace (`\s`) restricted to the characters modelled here
(ASCII whitespace and the no-break space). -/
def isSpaceChar (c : Char) : Bool :=
  c == ' ' || c == '\t' || c == '\n' || c == '\r' ||
    c == Char.ofNat 11 || c == Char.ofNat 12 || c == Char.ofNat 160

/-- Python `str.lower` on the modelled alphabet. -/
def pyLowerChar (c : Char) : Char :=
  if 'A' ≤ c && c ≤ 'Z' then Char.ofNat (c.toNat + 32)
  else match lookupChar accentUpper c with
    | some d => d
    | none => c

/-- `unidecode` on the modelled alphabet (accent folding to base letters). -/
def unideChar (c : Char) : Char :=
  match lookupChar accentLower c with
  | some d => d
  | none =>
    match lookupChar accentUpper c with
    | some d => unideLowerOf d
    | none => c
where
  unideLowerOf (d : Char) : Char :=
    match lookupChar accentLower d with
    | some e => Char.ofNat (e.toNat - 32)
    | none => d

/-- ASCII upper-casing, for the case-insensitive (`re.I`) literal matching. -/
def upAscii (c : Char) : Char :=
  if 'a' ≤ c && c ≤ 'z' then Char.ofNat (c.toNat - 32) else c

/-- Case-insensitive character comparison as performed by `re.I`. -/
def ciEq (a b : Char) : Bool := upAscii a == upAscii b

/-- Word boundary `\b` between an optional previous character and an optional
next character: true iff exactly one side is a word character. -/
def boundaryAt (prev next : Option Char) : Bool :=
  (match prev with | none => false | some p => isWordChar p) !=
  (match next with | none => false | some c => isWordChar c)

/-- Python substring containment (`needle in hay`). -/
def startsL : List Char → List Char → Bool
  | [], _ => true
  | _ :: _, [] => false
  | p :: ps, c :: cs => p == c && startsL ps cs

def hasSubL (n : List Char) : List Char → Bool
  | [] => startsL n []
  | c :: cs => startsL n (c :: cs) || hasSubL n cs

def hasSub (n hay : String) : Bool := hasSubL n.data hay.data

/-! ### The three code patterns of the service

`RE_SOP_NUM  = \b(?:QD-?)?SOP[-\s]?(\d{4,7})\b` (case-insensitive)
`RE_SOP_FULL = \b(?:QD-?)?SOP[-\s]?[A-Z0-9\-]{3,}\b` (case-insensitive)
`RE_NLINE    = \bN?\s*(?P<base>[12]\d{3})\s*(?:-|_|\s)?\s*(?P<suf>\d)\b`
`RE_IDR      = \bI\.?D\.?R\.?\b` (case-insensitive)

Each matcher takes the character preceding the attempted match position
(`prev`, for `\b`) and the remaining input, and returns the captured data
together with the number of input characters consumed.  Greedy matching
with backtracking is reproduced: quantifiers try the longest alternative
first and fall back only where the Python engine would. -/

/-- Case-insensitive literal prefix stripping. -/
def stripCI : List Char → List Char → Option (List Char)
  | [], l => some l
  | _ :: _, [] => none
  | p :: ps, c :: cs => if ciEq p c then stripCI ps cs else none

/-- Greedy `(\d{4,7})\b`: longest digit run of length ≤ 7, backtracking on the
trailing word boundary (the character before the boundary is a digit, hence a
word character, so the boundary holds iff the next character is absent or not
a word character).  Returns captured digits and count consumed. -/
def sopDigits (l : List Char) : Option (List Char × ℕ) :=
  let run := (l.takeWhile Char.isDigit).take 7
  ((List.range (run.length + 1)).reverse.filterMap (fun n =>
    if decide (4 ≤ n) &&
       (match (l.drop n).head? with
        | none => true
        | some c => !isWordChar c) then
      some (run.take n, n)
    else none)).head?

/-- `SOP[-\s]?(\d{4,7})\b` with the separator tried greedily first. -/
def sopNumAfter (l : List Char) (pre : ℕ) : Option (List Char × ℕ) :=
  match stripCI ['S','O','P'] l with
  | none => none
  | some l1 =>
    let withSep : Option (List Char × ℕ) :=
      match l1 with
      | c :: rest =>
        if c == '-' || isSpaceChar c then
          (sopDigits rest).map (fun p => (p.1, pre + 4 + p.2))
        else none
      | [] => none
    match withSep with
    | some r => some r
    | none => (sopDigits l1).map (fun p => (p.1, pre + 3 + p.2))

/-- Full `RE_SOP_NUM` matcher: word boundary, optional `QD-`/`QD` prefix
(greedy), then `SOP[-\s]?(\d{4,7})\b`. -/
def trySopNum (prev : Option Char) (l : List Char) : Option (List Char × ℕ) :=
  if !boundaryAt prev l.head? then none else
  match stripCI ['Q','D','-'] l with
  | some l1 =>
    match sopNumAfter l1 3 with
    | some r => some r
    | none =>
      match stripCI ['Q','D'] l with
      | some l2 =>
        match sopNumAfter l2 2 with
        | some r => some r
        | none => sopNumAfter l 0
      | none => sopNumAfter l 0
  | none =>
    match stripCI ['Q','D'] l with
    | some l2 =>
      match sopNumAfter l2 2 with
      | some r => some r
      | none => sopNumAfter l 0
    | none => sopNumAfter l 0

/-- Character class `[A-Z0-9\-]` under `re.I`. -/
def sopFullClass (c : Char) : Bool := c.isAlpha || c.isDigit || c == '-'

/-- Greedy `[A-Z0-9\-]{3,}\b` with backtracking on the boundary. -/
def sopClassRun (l : List Char) : Option ℕ :=
  let run := l.takeWhile sopFullClass
  ((List.range (run.length + 1)).reverse.filterMap (fun n =>
    if decide (3 ≤ n) &&
       boundaryAt ((run.take n).getLast?) ((l.drop n).head?) then
      some n
    else none)).head?

/-- `SOP[-\s]?[A-Z0-9\-]{3,}\b` with the separator tried greedily first. -/
def sopFullAfter (l : List Char) (pre : ℕ) : Option ℕ :=
  match stripCI ['S','O','P'] l with
  | none => none
  | some l1 =>
    let withSep : Option ℕ :=
      match l1 with
      | c :: rest =>
        if c == '-' || isSpaceChar c then
          (sopClassRun rest).map (fun n => pre + 4 + n)
        else none
      | [] => none
    match withSep with
    | some r => some r
    | none => (sopClassRun l1).map (fun n => pre + 3 + n)

/-- Full `RE_SOP_FULL` matcher; returns the number of characters consumed. -/
def trySopFull (prev : Option Char) (l : List Char) : Option ℕ :=
  if !boundaryAt prev l.head? then none else
  match stripCI ['Q','D','-'] l with
  | some l1 =>
    match sopFullAfter l1 3 with
    | some r => some r
    | none =>
      match stripCI ['Q','D'] l with
      | some l2 =>
        match sopFullAfter l2 2 with
        | some r => some r
        | none => sopFullAfter l 0
      | none => sopFullAfter l 0
  | none =>
    match stripCI ['Q','D'] l with
    | some l2 =>
      match sopFullAfter l2 2 with
      | some r => some r
      | none => sopFullAfter l 0
    | none => sopFullAfter l 0

/-- Trailing `(\d)\b` of `RE_NLINE`. -/
def nlineSuffix (l : List Char) (pre : ℕ) : Option (Char × ℕ) :=
  match l with
  | d :: rest =>
    if d.isDigit &&
       (match rest.head? with
        | none => true
        | some c => !isWordChar c) then
      some (d, pre + 1)
    else none
  | [] => none

/-- `\s*(?:-|_|\s)?\s*(\d)\b` after the base digits, separator greedy. -/
def nlineTail (l : List Char) : Option (Char × ℕ) :=
  let s1 := (l.takeWhile isSpaceChar).length
  let l1 := l.drop s1
  let withSep : Option (Char × ℕ) :=
    match l1 with
    | c :: rest =>
      if c == '-' || c == '_' || isSpaceChar c then
        let s2 := (rest.takeWhile isSpaceChar).length
        nlineSuffix (rest.drop s2) (s1 + 1 + s2)
      else none
    | [] => none
  match withSep with
  | some r => some r
  | none => nlineSuffix l1 s1

/-- `\s*([12]\d{3})` then the tail; `pre` counts the optional `N`. -/
def nlineBase (l : List Char) (pre : ℕ) : Option (List Char × Char × ℕ) :=
  let s0 := (l.takeWhile isSpaceChar).length
  match l.drop s0 with
  | c0 :: c1 :: c2 :: c3 :: rest =>
    if (c0 == '1' || c0 == '2') && c1.isDigit && c2.isDigit && c3.isDigit then
      (nlineTail rest).map (fun p => ([c0,c1,c2,c3], p.1, pre + s0 + 4 + p.2))
    else none
  | _ => none

/-- Full `RE_NLINE` matcher: returns (base digits, suffix digit, consumed). -/
def tryNline (prev : Option Char) (l : List Char) : Option (List Char × Char × ℕ) :=
  if !boundaryAt prev l.head? then none else
  match l with
  | c :: rest =>
    if ciEq c 'N' then
      match nlineBase rest 1 with
      | some r => some r
      | none => nlineBase l 0
    else nlineBase l 0
  | [] => none

/-- Full `RE_IDR` matcher (`\bI\.?D\.?R\.?\b`): the two inner optional dots are
committed greedily (equivalent to backtracking, since `D`/`R` are not dots);
the trailing optional dot backtracks on the final word boundary. -/
def tryIdr (prev : Option Char) (l : List Char) : Option ℕ :=
  if !boundaryAt prev l.head? then none else
  match l with
  | c1 :: l1 =>
    if ciEq c1 'I' then
      let (l2, n2) : List Char × ℕ :=
        match l1 with
        | '.' :: r => (r, 2)
        | _ => (l1, 1)
      match l2 with
      | c2 :: l3 =>
        if ciEq c2 'D' then
          let (l4, n4) : List Char × ℕ :=
            match l3 with
            | '.' :: r => (r, n2 + 2)
            | _ => (l3, n2 + 1)
          match l4 with
          | c3 :: l5 =>
            if ciEq c3 'R' then
              let withDot : Option ℕ :=
                match l5 with
                | '.' :: r =>
                  if boundaryAt (some '.') r.head? then some (n4 + 2) else none
                | _ => none
              match withDot with
              | some r => some r
              | none =>
                if boundaryAt (some c3) l5.head? then some (n4 + 1) else none
            else none
          | [] => none
        else none
      | [] => none
    else none
  | [] => none


/-! ### `re.sub` / `re.findall` scanning -/

/-- Previous-character context after consuming `n` characters of `l`
(the last character of the matched original slice). -/
def lastOfTake (prev : Option Char) (l : List Char) (n : ℕ) : Option Char :=
  match (l.take n).getLast? with
  | some d => some d
  | none => prev

/-- Left-to-right, non-overlapping `re.sub` with a matcher returning
(replacement, consumed).  Fuel is the input length; a match always consumes at
least one character so the fuel suffices. -/
def scanSub (m : Option Char → List Char → Option (List Char × ℕ)) :
    ℕ → Option Char → List Char → List Char
  | 0, _, l => l
  | _ + 1, _, [] => []
  | fuel + 1, prev, c :: cs =>
    match m prev (c :: cs) with
    | some (rep, n) =>
      rep ++ scanSub m fuel (lastOfTake prev (c :: cs) n) ((c :: cs).drop n)
    | none => c :: scanSub m fuel (some c) cs

def runSub (m : Option Char → List Char → Option (List Char × ℕ))
    (l : List Char) : List Char :=
  scanSub m l.length none l

/-- Left-to-right, non-overlapping `re.findall`/`re.finditer` collection. -/
def scanFind {α : Type} (m : Option Char → List Char → Option (α × ℕ)) :
    ℕ → Option Char → List Char → List α
  | 0, _, _ => []
  | _ + 1, _, [] => []
  | fuel + 1, prev, c :: cs =>
    match m prev (c :: cs) with
    | some (a, n) =>
      a :: scanFind m fuel (lastOfTake prev (c :: cs) n) ((c :: cs).drop n)
    | none => scanFind m fuel (some c) cs

def runFind {α : Type} (m : Option Char → List Char → Option (α × ℕ))
    (l : List Char) : List α :=
  scanFind m l.length none l

/-! ### `normalize_codes`, `norm`, `tokenize`, `extract_codes` -/

/-- `str.zfill(6)` on the captured digit run (applied when its length is at
most 6, exactly as `num.zfill(6) if len(num) <= 6 else num`). -/
def zfill6 (ds : List Char) : List Char :=
  if ds.length ≤ 6 then List.replicate (6 - ds.length) '0' ++ ds else ds

/-- `RE_SOP_NUM` substitution payload: `QD-SOP-{zfill}`. -/
def sopSubM (prev : Option Char) (l : List Char) : Option (List Char × ℕ) :=
  (trySopNum prev l).map (fun p => ("QD-SOP-".data ++ zfill6 p.1, p.2))

/-- `RE_NLINE` substitution payload: `N{base}-{suf}`. -/
def nlineSubM (prev : Option Char) (l : List Char) : Option (List Char × ℕ) :=
  (tryNline prev l).map (fun p => ('N' :: p.1 ++ ['-', p.2.1], p.2.2))

/-- `RE_IDR` substitution payload: the fixed token `IDR`. -/
def idrSubM (prev : Option Char) (l : List Char) : Option (List Char × ℕ) :=
  (tryIdr prev l).map (fun n => ("IDR".data, n))

/-- `normalize_codes`: the three substitutions applied in source order. -/
def normalize_codes (s : String) : String :=
  ⟨runSub idrSubM (runSub nlineSubM (runSub sopSubM s.data))⟩

/-- Whitespace collapsing `re.sub(r"\s+", " ", s).strip()`: split on
whitespace and re-join the words with single spaces.  (Fuel-based recursion:
every step consumes at least one character, so the input length is enough
fuel; structural recursion keeps the definition kernel-reducible.) -/
def wsWordsGo : ℕ → List Char → List (List Char)
  | 0, _ => []
  | _ + 1, [] => []
  | fuel + 1, c :: cs =>
    if isSpaceChar c then wsWordsGo fuel cs
    else (c :: cs.takeWhile (fun d => !isSpaceChar d)) ::
      wsWordsGo fuel (cs.dropWhile (fun d => !isSpaceChar d))

def wsWords (l : List Char) : List (List Char) := wsWordsGo l.length l

def collapseWs (l : List Char) : List Char :=
  (List.intersperse [' '] (wsWords l)).flatten

/-- `norm`: no-break-space replacement, `normalize_codes`, `str.lower`,
`unidecode`, whitespace collapsing — in source order. -/
def norm (s : String) : String :=
  ⟨collapseWs (((runSub idrSubM (runSub nlineSubM (runSub sopSubM
      (s.data.map (fun c => if c == Char.ofNat 160 then ' ' else c))))).map
        pyLowerChar).map unideChar)⟩

/-- Token character class `[a-z0-9\-_/\.]`. -/
def isTokChar (c : Char) : Bool :=
  ('a' ≤ c && c ≤ 'z') || c.isDigit || c == '-' || c == '_' || c == '/' || c == '.'

/-- Maximal runs of a character class (`re.findall` with `[...]+`), with the
same fuel pattern. -/
def classRunsGo (p : Char → Bool) : ℕ → List Char → List (List Char)
  | 0, _ => []
  | _ + 1, [] => []
  | fuel + 1, c :: cs =>
    if p c then (c :: cs.takeWhile p) :: classRunsGo p fuel (cs.dropWhile p)
    else classRunsGo p fuel cs

def classRuns (p : Char → Bool) (l : List Char) : List (List Char) :=
  classRunsGo p l.length l

/-- `tokenize`: token runs of the normalized text. -/
def tokenize (s : String) : List String :=
  (classRuns isTokChar (norm s).data).map (fun l => ⟨l⟩)

/-- Insertion-ordered set union used to model Python `set` accumulation
(Python set iteration order is hash-dependent; we fix first-insertion order —
no claim below depends on the order, only on membership and cardinality). -/
def addUnique (l : List String) (x : String) : List String :=
  if x ∈ l then l else l ++ [x]

def addAllUnique (l : List String) (xs : List String) : List String :=
  xs.foldl addUnique l

/-- First-occurrence deduplication (Python `set`/`dict` insertion order). -/
def firstDedup (xs : List String) : List String := addAllUnique [] xs

/-- `extract_codes`: canonicalized `RE_SOP_NUM` captures, raw `RE_SOP_FULL`
match slices, `RE_NLINE` rewrites, and `IDR` presence, as a set. -/
def extract_codes (s : String) : List String :=
  let l := s.data
  let nums : List String :=
    (runFind trySopNum l).map (fun p => ⟨"QD-SOP-".data ++ zfill6 p⟩)
  let fulls : List String :=
    (runFind (fun prev r =>
      (trySopFull prev r).map (fun n => (String.mk (r.take n), n))) l)
  let nls : List String :=
    (runFind (fun prev r =>
      (tryNline prev r).map (fun p => ((p.1, p.2.1), p.2.2))) l).map
        (fun p => ⟨'N' :: p.1 ++ ['-', p.2]⟩)
  let idr : List String :=
    if (runFind (fun prev r =>
      (tryIdr prev r).map (fun n => ((), n))) l).isEmpty then [] else ["IDR"]
  addAllUnique (addAllUnique (addAllUnique (addAllUnique [] nums) fulls) nls) idr

/-! ### Configuration constants (environment defaults of the source) -/

def TOPK_DEFAULT : ℤ := 60
def DEEP_ON : Bool := true
def USE_SPANS : Bool := true
def SPANS_TOP : ℕ := 3
def PREDICT_NEXT_ON : Bool := true
def MMR_LAMBDA_DOC : ℚ := 0.75
def MMR_LAMBDA_CHUNK : ℚ := 0.70
def MMR_LIMIT_DOC : ℕ := 40
def MMR_LIMIT_CHUNK : ℕ := 24

/-- We model the oracle-unavailable configuration (`ce_model is None`, which
also forces `RERANK_ENABLED = False` at startup): the claims under study all
concern the no-cross-encoder code path. -/
def RERANK_ENABLED : Bool := false

def KEYWORD_BOOSTS : List (String × ℚ) :=
  [("sop", 0.30), ("procédure", 0.25), ("procedure", 0.25),
   ("déchet", 0.45), ("dechet", 0.45), ("déchets", 0.45), ("waste", 0.35),
   ("sécurité", 0.25), ("securite", 0.25), ("safety", 0.25),
   ("maintenance", 0.22), ("validation", 0.22), ("nettoyage", 0.22), ("cleaning", 0.22),
   ("checklist", 0.30), ("inspection", 0.18), ("liste", 0.20), ("contrôle", 0.18), ("controle", 0.18),
   ("idr", 0.55), ("format", 0.25), ("vignetteuse", 0.40), ("neri", 0.20), ("notice", 0.18),
   ("réglages", 0.22), ("reglages", 0.22), ("ssol", 0.20), ("liq", 0.20), ("bulk", 0.15),
   ("vfd", 0.45), ("variable", 0.12), ("frequency", 0.12), ("inverter", 0.22), ("drive", 0.16),
   ("policy", 0.18), ("policies", 0.18), ("global", 0.12), ("site", 0.10), ("plant", 0.10)]

def BILINGUAL_DEFAULTS : List (String × String) :=
  [("procédure", "procedure standard operating procedure SOP"),
   ("liste de contrôle", "checklist check list inspection list"),
   ("gestion des déchets", "waste management disposal segregation"),
   ("sécurité", "safety EHS HSE"),
   ("maintenance", "maintenance preventive corrective PM"),
   ("nettoyage", "cleaning sanitation washdown"),
   ("validation", "validation IQ OQ PQ"),
   ("format", "setup changeover format settings"),
   ("traçabilité", "traceability genealogy")]

def NEXT_SEED_TERMS : List String :=
  ["que faire", "quoi faire", "je suis perdu", "j'ai besoin d'aide", "help", "how to",
   "procedure/steps", "procédure/étapes", "responsabilités", "responsibilities",
   "enregistrements", "records", "définitions", "definitions", "références", "references",
   "non conformité", "non-conformité", "nc", "déviation", "deviation", "capa", "action corrective",
   "EHS", "HSE", "sécurité", "safety", "IPC", "contrôles", "controls",
   "tolérances", "parameters", "fréquences", "frequencies",
   "validation", "IQ", "OQ", "PQ", "format", "changeover", "traçabilité", "traceability",
   "matériel", "équipements", "equipment", "nettoyage", "cleaning"]

def FR_HINTS : List String :=
  [" le ", " la ", " les ", " des ", " du ", " de ", " procédure", " déchets", " sécurité", " variateur"]

def EN_HINTS : List String :=
  [" the ", " and ", " or ", " procedure", " checklist", " safety", " waste", " validation"]

/-! ### Word-bounded alternation searches (`re.search(r"\b(...)\b", f)`) -/

/-- Case-insensitive literal alternative (on already-lowercased text this is
exact matching). -/
def litM (w : String) (l : List Char) : Option ℕ :=
  match stripCI w.data l with
  | some _ => some w.data.length
  | none => none

/-- Alternative `91\d{2}`. -/
def pat91M (l : List Char) : Option ℕ :=
  match l with
  | a :: b :: c :: d :: _ =>
    if a == '9' && b == '1' && c.isDigit && d.isDigit then some 4 else none
  | _ => none

/-- Alternative `n[12]\d{3}-\d`. -/
def patNlineM (l : List Char) : Option ℕ :=
  match l with
  | a :: c0 :: c1 :: c2 :: c3 :: e :: d :: _ =>
    if ciEq a 'n' && (c0 == '1' || c0 == '2') && c1.isDigit && c2.isDigit &&
       c3.isDigit && e == '-' && d.isDigit then some 7 else none
  | _ => none

/-- `re.search` for a word-bounded alternation: some position carries a word
boundary, one alternative matches there, and a word boundary follows it. -/
def wordSearchGo (alts : List (List Char → Option ℕ)) :
    Option Char → List Char → Bool
  | _, [] => false
  | prev, c :: cs =>
    (boundaryAt prev (some c) && alts.any (fun m =>
      match m (c :: cs) with
      | some n => boundaryAt (lastOfTake prev (c :: cs) n) ((c :: cs).drop n).head?
      | none => false)) || wordSearchGo alts (some c) cs

def wordSearch (alts : List (List Char → Option ℕ)) (s : String) : Bool :=
  wordSearchGo alts none s.data

/-- Python `str.lower` on strings. -/
def lowerStr (s : String) : String := ⟨s.data.map pyLowerChar⟩

/-- Python `str.split()` (whitespace split, empty pieces dropped). -/
def pySplit (s : String) : List String := (wsWords s.data).map (fun l => ⟨l⟩)

/-! ### Filename classification and query intent -/

/-- `is_general_filename`. -/
def is_general_filename (fn : String) : Bool :=
  let f := norm fn
  let has_line_no := wordSearch [pat91M, patNlineM, litM "ligne", litM "line", litM "micro"] f
  let is_sop := wordSearch [litM "sop", litM "qd-sop"] f
  let has_global := wordSearch
    [litM "procedure", litM "proce", litM "dechet", litM "dechets", litM "waste",
     litM "global", litM "site", litM "usine", litM "policy", litM "policies"] f
  (is_sop || has_global) && !has_line_no

/-- `is_specific_filename`. -/
def is_specific_filename (fn : String) : Bool :=
  wordSearch [pat91M, patNlineM, litM "ligne", litM "line", litM "micro",
    litM "neri", litM "vignetteuse"] (norm fn)

/-- `intent_from_query`: (prefer_global, prefer_sop). -/
def intent_from_query (q : String) : Bool × Bool :=
  let n := norm q
  let prefer_global := ["global", "generale", "générale", "procedure", "procédure",
    "site", "usine", "policy", "policies"].any (fun w => hasSub w n)
  let prefer_sop := ["sop", "procédure", "procedure", "qd-sop"].any (fun w => hasSub w n)
  (prefer_global, prefer_sop)

/-- `re.search(r"\b(sop|qd-sop)\b", fn, re.I)` used by the intent bias. -/
def sopWordInFilename (fn : String) : Bool :=
  wordSearch [litM "sop", litM "qd-sop"] fn

/-- `guess_lang`. -/
def guess_lang (q : String) : String :=
  let n := " " ++ norm q ++ " "
  let accents : List Char := ['é','è','à','ù','â','ê','î','ô','û','ç']
  let fr : ℤ := (FR_HINTS.filter (fun h => hasSub h n)).length +
    (if q.data.any (fun c => accents.contains c) then 2 else 0)
  let en : ℤ := (EN_HINTS.filter (fun h => hasSub h n)).length
  if fr - en ≥ 2 then "fr" else if en - fr ≥ 2 then "en" else "fr"

/-! ### External store and numeric backends -/

/-- A row of `askv_chunks` joined with `askv_documents`. -/
structure ChunkRow where
  chunk_id : ℕ
  doc_id : String
  chunk_index : ℕ
  content : String
  filename : String
  page : Option ℕ := none
  section_title : Option String := none
deriving DecidableEq, Repr

/-- A row of the optional `askv_spans` table. -/
structure SpanRow where
  doc_id : String
  chunk_index : ℕ
  span_index : ℕ
  text : String
  page : Option ℕ := none
deriving DecidableEq, Repr

/-- A row of `askv_synonyms`. -/
structure SynRow where
  term : String
  alt : String
  weight : ℚ
deriving DecidableEq, Repr

/-- The read-only Postgres store.  `reachable = false` models a connection
failure of `psycopg2.connect` (every `db_query` raises); `synReadable = false`
models a missing/unreadable synonym table (those queries raise and are caught
by their callers). -/
structure Store where
  reachable : Bool
  chunks : List ChunkRow
  synonyms : List SynRow
  synReadable : Bool
  hasSpansTable : Bool
  spans : List SpanRow

/-- Opaque numeric library calls: `math.sqrt` (and the square root inside
`np.std`), `rapidfuzz.fuzz.ratio` and `rapidfuzz.fuzz.partial_ratio`.  All
general theorems below hold for every instantiation. -/
structure NumBackend where
  sqrt : ℚ → ℚ
  ratio : String → String → ℚ
  pratio : String → String → ℚ

/-- The fitted retrieval structures of one snapshot, consumed as functions:
`BM25Okapi.get_scores`, the two TF-IDF query-similarity products, the raw
word-space query projection `VECT_WORD.transform`, and the L2-normalized
row vectors `ROW_TFIDF` cached for MMR. -/
structure Backends where
  bmScores : List String → List ℚ
  wordSim : String → List ℚ
  charSim : String → List ℚ
  wordQueryVec : String → List ℚ
  rowVecs : List (List ℚ)

/-- The in-RAM index (`DOCS`, `TOKS`, `FILEN_TOKS`, `CODES`, fitted
structures, span table).  `backends = none` models `BM25 = VECT_* = ROW_* =
None`; in the source all of them are `None` exactly when `DOCS` is empty, so
one `Option` suffices. -/
structure Snapshot where
  DOCS : List ChunkRow
  TOKS : List (List String)
  FILEN_TOKS : List (List String)
  CODES : List (List String)
  backends : Option Backends
  HAS_SPANS : Bool
  SPANS : List SpanRow

/-- The empty startup state (before any successful `build_index`). -/
def emptySnapshot : Snapshot :=
  { DOCS := [], TOKS := [], FILEN_TOKS := [], CODES := [],
    backends := none, HAS_SPANS := false, SPANS := [] }

/-- `build_index`: reads all chunks (raising on an unreachable store), derives
tokens and codes, fits the retrieval structures (supplied as `bk`, `None` on
an empty corpus), and loads spans when the span table exists. -/
def build_index (bk : Backends) (store : Store) : Except String Snapshot :=
  if store.reachable then
    Except.ok
      { DOCS := store.chunks,
        TOKS := store.chunks.map (fun r => tokenize r.content),
        FILEN_TOKS := store.chunks.map (fun r => tokenize r.filename),
        CODES := store.chunks.map (fun r =>
          extract_codes (r.content ++ " " ++ r.filename)),
        backends := if store.chunks.isEmpty then none else some bk,
        HAS_SPANS := store.hasSpansTable,
        SPANS := if store.hasSpansTable && USE_SPANS then store.spans else [] }
  else Except.error "could not connect to corpus store"

/-- The snapshot `build_index` produces over a store with zero chunks. -/
def emptyBuilt (store : Store) : Snapshot :=
  { DOCS := [], TOKS := [], FILEN_TOKS := [], CODES := [],
    backends := none, HAS_SPANS := store.hasSpansTable,
    SPANS := if store.hasSpansTable && USE_SPANS then store.spans else [] }

/-- `ensure_index`: rebuild only when no chunks are loaded. -/
def ensure_index (cur : Snapshot) (bk : Backends) (store : Store) :
    Except String Snapshot :=
  if cur.DOCS.isEmpty then build_index bk store else Except.ok cur

/-! ### Numeric list helpers -/

def zeros (n : ℕ) : List ℚ := List.replicate n 0

def addL (a b : List ℚ) : List ℚ := List.zipWith (· + ·) a b

def smulL (c : ℚ) (a : List ℚ) : List ℚ := a.map (fun x => c * x)

/-- `np.mean`. -/
def meanL (xs : List ℚ) : ℚ := xs.sum / (xs.length : ℚ)

/-- The variance whose square root `np.std` returns. -/
def varL (xs : List ℚ) : ℚ := meanL (xs.map (fun x => (x - meanL xs) ^ 2))

/-- `np.std(x) or 1.0`: the standard deviation, with `0.0` (falsy) replaced
by `1.0`.  The square root is routed through the numeric backend. -/
def stdOr1 (nb : NumBackend) (xs : List ℚ) : ℚ :=
  let s := nb.sqrt (varL xs)
  if s = 0 then 1 else s

/-- `_z`: standardization (guarding the empty array exactly as the source). -/
def zList (nb : NumBackend) (xs : List ℚ) : List ℚ :=
  if xs.isEmpty then xs
  else xs.map (fun x => (x - meanL xs) / stdOr1 nb xs)

/-- `np.linspace(a, b, num=n)`. -/
def linspace (a b : ℚ) (n : ℕ) : List ℚ :=
  match n with
  | 0 => []
  | 1 => [a]
  | m + 2 => (List.range (m + 2)).map
      (fun (i : ℕ) => a + (b - a) * (i : ℚ) / ((m : ℚ) + 1))

/-! ### Synonyms -/

/-- `fetch_synonyms_for_tokens`: empty token list short-circuits; a store or
synonym-table failure is caught and degraded to `[]`; otherwise the rows whose
lowered term or alternate term is among the lowered tokens, capped at 1000. -/
def fetch_synonyms_for_tokens (store : Store) (tokens : List String) :
    List SynRow :=
  if tokens.isEmpty then []
  else if !(store.reachable && store.synReadable) then []
  else
    let params := tokens.map lowerStr
    (store.synonyms.filter (fun r =>
      params.contains (lowerStr r.term) || params.contains (lowerStr r.alt))).take 1000

/-! ### Multi-signal scorer -/

/-- The six per-chunk raw signal arrays of `score_arrays_for_query`. -/
structure SignalArrays where
  bm : List ℚ
  tfw : List ℚ
  tfc : List ℚ
  fname : List ℚ
  code : List ℚ
  fuzzy : List ℚ

/-- Filename-heuristic score of a single chunk: capped distinct-token-overlap
bonus, additive keyword boosts over the space-joined filename tokens, and a
0.25 penalty per negative token found in them. -/
def fnameScore (qTokens negTokens ft : List String) : ℚ :=
  if ft.isEmpty then 0
  else
    let interLen := ((firstDedup ft).filter (fun t => qTokens.contains t)).length
    let base := if interLen ≠ 0 then min 0.5 (0.12 * (interLen : ℚ)) else 0
    let lowf := String.intercalate " " ft
    let kw := ((KEYWORD_BOOSTS.filter (fun p => hasSub p.1 lowf)).map
      (fun p => p.2)).sum
    let neg : ℚ := ((negTokens.filter (fun nt =>
      nt ≠ "" && hasSub nt lowf)).length : ℚ) * 0.25
    base + kw - neg

/-- Code-boost contribution of one query code against one chunk's code set:
1.25 for a verbatim hit, else 0.7 when some chunk code is fuzzily similar
(ratio at least 90), else 0. -/
def codeBoostTerm (nb : NumBackend) (codes : List String) (qc : String) : ℚ :=
  if codes.contains qc then 1.25
  else if codes.any (fun c => decide (90 ≤ nb.ratio (lowerStr qc) (lowerStr c)))
    then 0.7 else 0

/-- Code-boost score of one chunk (`if not codes: continue` keeps it 0). -/
def codeBoost (nb : NumBackend) (qCodes codes : List String) : ℚ :=
  if codes.isEmpty then 0 else (qCodes.map (codeBoostTerm nb codes)).sum

/-- Tiered fuzzy filename score of one chunk. -/
def fuzzyScore (nb : NumBackend) (qn : String) (fn : String) : ℚ :=
  if fn = "" then 0
  else
    let sc := nb.pratio qn (norm fn)
    if 92 ≤ sc then 0.45 else if 84 ≤ sc then 0.25 else if 78 ≤ sc then 0.12 else 0

/-- `score_arrays_for_query`. -/
def score_arrays_for_query (nb : NumBackend) (sn : Snapshot) (q : String) :
    SignalArrays :=
  let n := sn.DOCS.length
  let qn := norm q
  let qTokensAll := tokenize q
  let negTokens := (qTokensAll.filter (fun t =>
    t.startsWith "-" && 1 < t.length)).map (fun t => t.drop 1)
  let qTokens := qTokensAll.filter (fun t => !t.startsWith "-")
  let bm := match sn.backends with
    | some bk => if qTokens.isEmpty then zeros n else bk.bmScores qTokens
    | none => zeros n
  let tfw := match sn.backends with
    | some bk => bk.wordSim qn
    | none => zeros n
  let tfc := match sn.backends with
    | some bk => bk.charSim qn
    | none => zeros n
  let qCodes := extract_codes q
  { bm := bm, tfw := tfw, tfc := tfc,
    fname := sn.FILEN_TOKS.map (fnameScore qTokens negTokens),
    code := sn.CODES.map (codeBoost nb qCodes),
    fuzzy := if 5 ≤ qn.length then
        sn.DOCS.map (fun r => fuzzyScore nb qn r.filename)
      else zeros n }

/-- `combine_scores`: weighted standardized sparse signals plus the additive
filename, code-boost and halved fuzzy terms. -/
def combine_scores (nb : NumBackend) (a : SignalArrays) : List ℚ :=
  addL (addL (addL (addL (addL
    (smulL 0.60 (zList nb a.bm))
    (smulL 0.56 (zList nb a.tfw)))
    (smulL 0.22 (zList nb a.tfc)))
    a.fname)
    a.code)
    (smulL 0.5 a.fuzzy)

/-- Role/sector bias of one chunk (+0.06 per bias string found as a substring
of the lowered filename). -/
def roleSectorBias (role sector : Option String) (fn : String) : ℚ :=
  let rlow := lowerStr (role.getD "")
  let slow := lowerStr (sector.getD "")
  let f := lowerStr fn
  (if rlow ≠ "" && hasSub rlow f then (0.06 : ℚ) else 0) +
  (if slow ≠ "" && hasSub slow f then (0.06 : ℚ) else 0)

/-- Intent bias of one chunk. -/
def intentBias (preferGlobal preferSop : Bool) (fn : String) : ℚ :=
  (if preferGlobal then
    (if is_general_filename fn then (0.35 : ℚ) else 0) +
    (if is_specific_filename fn then (-0.15 : ℚ) else 0)
   else
    (if is_specific_filename fn then (0.12 : ℚ) else 0)) +
  (if preferSop && sopWordInFilename fn then (0.25 : ℚ) else 0)

/-- `score_hybrid_single`: fused signal combination plus role/sector and
intent biases. -/
def score_hybrid_single (nb : NumBackend) (sn : Snapshot) (q : String)
    (role sector : Option String) : List ℚ :=
  let pg := (intent_from_query q).1
  let ps := (intent_from_query q).2
  let a := score_arrays_for_query nb sn q
  let rs := sn.DOCS.map (fun r => roleSectorBias role sector r.filename)
  let intent := sn.DOCS.map (fun r => intentBias pg ps r.filename)
  addL (addL (combine_scores nb a) rs) intent

/-! ### Sub-query generation and aggregation -/

/-- `predict_next_terms`: the first `limit` seed terms whose normalization is
not already a substring of the normalized question. -/
def predictLoop (n : String) (lim : ℕ) : List String → List String → List String
  | [], acc => acc
  | w :: ws, acc =>
    let acc' := if hasSub (norm w) n then acc else acc ++ [w]
    if lim ≤ acc'.length then acc' else predictLoop n lim ws acc'

def predict_next_terms (question : String) (lastAnswer : Option String)
    (limit : ℕ) : List String :=
  if !PREDICT_NEXT_ON then []
  else
    let base := question ++ " " ++ lastAnswer.getD ""
    predictLoop (norm base) limit NEXT_SEED_TERMS []

/-- `generate_subqueries`: the original, each extracted code, a head-truncated
form for long queries, bilingual expansions, database-synonym expansions, and
up to five next-term expansions, as an insertion-ordered set capped at 10. -/
def generate_subqueries (store : Store) (q : String)
    (nextTerms : Option (List String)) : List String :=
  let n := norm q
  let s1 := addAllUnique [q] (extract_codes q)
  let toks := tokenize q
  let s2 := if 10 < toks.length then
      addUnique s1 (String.intercalate " " (toks.take 6))
    else s1
  let s3 := BILINGUAL_DEFAULTS.foldl (fun acc p =>
    let acc1 := if hasSub p.1 n then addUnique acc (q ++ " " ++ p.2) else acc
    if (pySplit p.2).any (fun w => hasSub w n) then
      addUnique acc1 (q ++ " " ++ p.1)
    else acc1) s2
  let syns := fetch_synonyms_for_tokens store (toks.take 6)
  let s4 := syns.foldl (fun acc r =>
    if r.alt ≠ "" then addUnique acc (q ++ " " ++ r.alt) else acc) s3
  let s5 := match nextTerms with
    | some (t :: ts) => ((t :: ts).take 5).foldl (fun acc t2 =>
        addUnique acc (q ++ " " ++ t2)) s4
    | _ => s4
  s5.take 10

/-- The scored variant list of `aggregate_over_subqueries`:
`[q] + generate_subqueries(q, next_terms)`. -/
def scoredVariants (store : Store) (q : String)
    (nextTerms : Option (List String)) : List String :=
  q :: generate_subqueries store q nextTerms

/-- `aggregate_over_subqueries`: weighted sum of per-variant hybrid scores
with weights `np.linspace(1.0, 0.6, len(subs))`. -/
def aggregate_over_subqueries (nb : NumBackend) (store : Store) (sn : Snapshot)
    (q : String) (role sector : Option String)
    (nextTerms : Option (List String)) : List ℚ :=
  let subs := scoredVariants store q nextTerms
  let weights := linspace 1 0.6 subs.length
  (List.zip weights subs).foldl (fun S p =>
    addL S (smulL p.1 (score_hybrid_single nb sn p.2 role sector)))
    (zeros sn.DOCS.length)

/-! ### Two-stage MMR -/

def dotL (a b : List ℚ) : ℚ := (List.zipWith (· * ·) a b).sum

/-- First maximizer of `f` over a list (`np.argmax` / stable descending sort
then head: ties resolved to the earliest element). -/
def argmaxFirst (f : ℕ → ℚ) : List ℕ → Option ℕ
  | [] => none
  | x :: xs =>
    match argmaxFirst f xs with
    | none => some x
    | some y => if f x < f y then some y else some x

/-- `max(sim_mat[idx, j] for j in selected_idx)` (caller guarantees
nonemptiness; `0` on `[]` mirrors the guarded `else 0.0`). -/
def maxSimTo (sim : ℕ → ℕ → ℚ) (i : ℕ) : List ℕ → ℚ
  | [] => 0
  | j :: js => js.foldl (fun m j2 => max m (sim i j2)) (sim i j)

/-- The greedy MMR selection loop of `_mmr_from_rows`; fuel is the number of
rows (each iteration removes the chosen index from `avail`). -/
def mmrLoop (rel : ℕ → ℚ) (sim : ℕ → ℕ → ℚ) (lam : ℚ) (bound : ℕ) :
    ℕ → List ℕ → List ℕ → List ℕ
  | 0, _, sel => sel
  | fuel + 1, avail, sel =>
    if avail.isEmpty || bound ≤ sel.length then sel
    else
      match (match sel with
        | [] => argmaxFirst rel avail
        | _ :: _ => argmaxFirst
            (fun i => lam * rel i - (1 - lam) * maxSimTo sim i sel) avail) with
      | none => sel
      | some c => mmrLoop rel sim lam bound fuel (avail.erase c) (sel ++ [c])

/-- `_mmr_from_rows` over explicit row vectors and query projection. -/
def mmr_from_rows (rowvecs : List (List ℚ)) (qv : List ℚ) (lam : ℚ)
    (limit : ℕ) : List ℕ :=
  mmrLoop (fun i => dotL (rowvecs.getD i []) qv)
    (fun i j => dotL (rowvecs.getD i []) (rowvecs.getD j []))
    lam (min limit rowvecs.length) rowvecs.length
    (List.range rowvecs.length) []

/-- Per-query candidate record (the ephemeral result dict of
`deep_candidates`; `coverage` is the `_coverage` annotation). -/
structure Candidate where
  chunk_id : ℕ
  doc_id : String
  filename : String
  chunk_index : ℕ
  score : ℚ
  codes : List String
  snippet : String
  page : Option ℕ := none
  section_title : Option String := none
  coverage : ℚ := 0
  score_final : ℚ := 0
deriving DecidableEq, Repr

def dummyCand : Candidate :=
  { chunk_id := 0, doc_id := "", filename := "", chunk_index := 0,
    score := 0, codes := [], snippet := "" }

def dummyChunk : ChunkRow :=
  { chunk_id := 0, doc_id := "", chunk_index := 0, content := "", filename := "" }

def dummySpan : SpanRow :=
  { doc_id := "", chunk_index := 0, span_index := 0, text := "" }

instance : Inhabited Candidate := ⟨dummyCand⟩

instance : Inhabited ChunkRow := ⟨dummyChunk⟩

instance : Inhabited SpanRow := ⟨dummySpan⟩

/-- `mmr_two_stage`: document-level MMR over one representative row per
distinct document, then chunk-level MMR over the chunks of the surviving
documents, truncated to `k`.  A missing vector structure makes it a no-op
truncation. -/
def mmr_two_stage (nb : NumBackend) (sn : Snapshot) (items : List Candidate)
    (k : ℕ) (q : String) : List Candidate :=
  match sn.backends with
  | none => items.take k
  | some bk =>
    if items.isEmpty then items.take k
    else
      let ridx := fun (it : Candidate) =>
        sn.DOCS.findIdx? (fun d => d.chunk_id == it.chunk_id)
      let found := items.filterMap (fun it =>
        (ridx it).map (fun i => (it.doc_id, i)))
      let docs := firstDedup (found.map (fun p => p.1))
      let repRows := docs.map (fun d =>
        (((found.filter (fun p => p.1 == d)).head?).map (fun p => p.2)).getD 0)
      let docRowvecs := repRows.map (fun i => bk.rowVecs.getD i [])
      let qvec := bk.wordQueryVec (norm q)
      let qnorm := nb.sqrt ((qvec.map (fun x => x ^ 2)).sum) + 1 / 10 ^ 12
      let qv := qvec.map (fun x => x / qnorm)
      let keepIdx := mmr_from_rows docRowvecs qv MMR_LAMBDA_DOC
        (min MMR_LIMIT_DOC docs.length)
      let keepDocs := keepIdx.map (fun i => docs.getD i "")
      let keptItems := items.filter (fun it => keepDocs.contains it.doc_id)
      let keptRows := keptItems.filterMap ridx
      if keptRows.isEmpty then items.take k
      else
        let chunkRowvecs := keptRows.map (fun i => bk.rowVecs.getD i [])
        let keepRel := mmr_from_rows chunkRowvecs qv MMR_LAMBDA_CHUNK
          (min MMR_LIMIT_CHUNK keptItems.length)
        (keepRel.map (fun i => keptItems.getD i dummyCand)).take k

/-! ### Spans, coverage, answerability -/

/-- Evidence fragment attached to responses (span hit or fallback snippet). -/
structure EvItem where
  text : String
  page : Option ℕ := none
  chunk_index : Option ℕ := none
  span_index : Option ℕ := none
  score : Option ℚ := none
deriving DecidableEq, Repr

/-- Stable descending insertion by a rational key (Python
`list.sort(key=..., reverse=True)` keeps the original order of equal keys). -/
def insDesc {α : Type} (key : α → ℚ) (x : α) : List α → List α
  | [] => [x]
  | y :: ys => if key y ≤ key x then x :: y :: ys else y :: insDesc key x ys

def sortDescBy {α : Type} (key : α → ℚ) : List α → List α
  | [] => []
  | x :: xs => insDesc key x (sortDescBy key xs)

/-- `best_spans_for`: token-overlap scoring of the document's spans, stable
descending sort, top `limit`. -/
def best_spans_for (sn : Snapshot) (doc_id : String) (query : String)
    (limit : ℕ) : List EvItem :=
  if !(sn.HAS_SPANS && USE_SPANS) then []
  else
    let idxs := (List.range sn.SPANS.length).filter (fun i =>
      (sn.SPANS.getD i dummySpan).doc_id == doc_id)
    if idxs.isEmpty then []
    else
      let qT := tokenize query
      let score := fun (i : ℕ) =>
        let toks := tokenize (sn.SPANS.getD i dummySpan).text
        let inter := ((firstDedup qT).filter (fun t => toks.contains t)).length
        (inter : ℚ) + 0.0001 * (if 0 < toks.length then 1 else 0)
      ((sortDescBy score idxs).take limit).map (fun i =>
        let s := sn.SPANS.getD i dummySpan
        { text := s.text, page := s.page, chunk_index := some s.chunk_index,
          span_index := some s.span_index })

/-- `answerability_label`. -/
def answerability_label (evidence_counts : List ℤ) (need : ℕ) : String :=
  let tot := (evidence_counts.filter (fun c => 0 < c)).length
  if need ≤ tot then "CERTAIN" else if tot = 1 then "PARTIAL" else "NR"

/-! ### Deep candidates (oracle-unavailable blend) -/

def RERANK_KEEP : ℕ := 80

/-- Chunk-level code-match flag of the final blends: some extracted code is a
canonical procedure code (`QD-SOP-` prefix) or the inspection-report marker
(the Python generator also requires the matching code to be truthy, i.e.
nonempty). -/
def hasCanonicalCode (codes : List String) : Bool :=
  codes.any (fun c => (c.startsWith "QD-SOP-" || c == "IDR") && c != "")

/-- The no-cross-encoder multi-objective blend
(`final = 0.80*hybrid + 0.15*coverage + 0.05*code_flag`) followed by the
stable descending sort on `score_final`. -/
def blendNoCE (items : List Candidate) : List Candidate :=
  sortDescBy (fun it => it.score_final)
    (items.map (fun it =>
      { it with score_final :=
          0.80 * it.score + 0.15 * it.coverage +
          0.05 * (if hasCanonicalCode it.codes then (1 : ℚ) else 0) }))

/-- Descending selection of the top `kp` row indices by score
(`np.argpartition` + `np.argsort`; numpy's tie order is unspecified, fixed
here as original order). -/
def topIdxDesc (S : List ℚ) (kp : ℕ) : List ℕ :=
  (sortDescBy (fun i => S.getD i 0) (List.range S.length)).take kp

/-- The candidate dict built from row `i`. -/
def mkCandidate (sn : Snapshot) (S : List ℚ) (i : ℕ) : Candidate :=
  let r := sn.DOCS.getD i dummyChunk
  { chunk_id := r.chunk_id, doc_id := r.doc_id, filename := r.filename,
    chunk_index := r.chunk_index, score := S.getD i 0,
    codes := sn.CODES.getD i [], snippet := r.content.take 900,
    page := r.page, section_title := r.section_title }

/-- `deep_candidates` in the oracle-unavailable configuration: aggregate
hybrid scores over sub-queries, take the top pool, annotate evidence
coverage, apply the simple blend, diversify with two-stage MMR, truncate. -/
def deep_candidates (nb : NumBackend) (store : Store) (sn : Snapshot)
    (q : String) (k : ℕ) (role sector : Option String)
    (nextTerms : Option (List String)) : List Candidate :=
  let baseK := if RERANK_ENABLED then max k RERANK_KEEP else k
  let S := aggregate_over_subqueries nb store sn q role sector nextTerms
  if S.length = 0 then []
  else
    let kprime := min (max baseK 1) S.length
    let prelim := (topIdxDesc S kprime).map (mkCandidate sn S)
    let withCov := prelim.map (fun it =>
      let cov : ℚ := if sn.HAS_SPANS && USE_SPANS then
          min (((best_spans_for sn it.doc_id q SPANS_TOP).length : ℚ) /
            (max 1 SPANS_TOP : ℕ)) 1
        else 0
      { it with coverage := cov })
    let blended := blendNoCE withCov
    let diversified := if DEEP_ON && !blended.isEmpty then
        mmr_two_stage nb sn blended k q
      else blended
    diversified.take k

/-! ### Endpoints -/

structure SearchReq where
  query : String
  k : Option ℤ := none
  role : Option String := none
  sector : Option String := none
  next_terms : Option (List String) := none

structure SearchResp where
  ok : Bool
  anticipated_terms : List String
  items : List (Candidate × List EvItem)

/-- `k = max(10, min(200, req.k or TOPK_DEFAULT))` (note: `k = 0` is falsy in
Python and falls back to the default). -/
def kClamp (reqK : Option ℤ) : ℕ :=
  let kv : ℤ := match reqK with
    | some v => if v = 0 then TOPK_DEFAULT else v
    | none => TOPK_DEFAULT
  (max 10 (min 200 kv)).toNat

/-- The `/search` handler. -/
def search (nb : NumBackend) (bk : Backends) (store : Store) (cur : Snapshot)
    (req : SearchReq) : Except String SearchResp := do
  let sn ← ensure_index cur bk store
  let q := normalize_codes req.query
  let k := kClamp req.k
  let nt0 := (req.next_terms.getD []).take 5
  let nextTerms := if nt0.isEmpty then predict_next_terms q none 5 else nt0
  let items := deep_candidates nb store sn q
    (if RERANK_ENABLED then max k RERANK_KEEP else k)
    req.role req.sector (some nextTerms)
  let enriched := items.map (fun it =>
    (it, if sn.HAS_SPANS && USE_SPANS then best_spans_for sn it.doc_id q SPANS_TOP
         else []))
  pure { ok := true, anticipated_terms := nextTerms, items := enriched.take k }

structure HealthResp where
  ok : Bool
  chunks : ℕ
  spans : ℕ
  bm25 : Bool
  tfidf_word : Bool
  tfidf_char : Bool
  deep : Bool
  use_spans : Bool
  predict_next : Bool
  synonyms : Option ℕ

/-- The `/health` handler (the synonym count degrades to `None` when the
store or the synonym table is unreachable). -/
def health (sn : Snapshot) (store : Store) : HealthResp :=
  { ok := true, chunks := sn.DOCS.length,
    spans := if sn.HAS_SPANS then sn.SPANS.length else 0,
    bm25 := sn.backends.isSome,
    tfidf_word := sn.backends.isSome,
    tfidf_char := sn.backends.isSome,
    deep := DEEP_ON,
    use_spans := sn.HAS_SPANS && USE_SPANS,
    predict_next := PREDICT_NEXT_ON,
    synonyms := if store.reachable && store.synReadable then
        some store.synonyms.length
      else none }

/-- The `/reindex` handler: a full rebuild, propagating store failure. -/
def reindex (bk : Backends) (store : Store) : Except String Snapshot :=
  build_index bk store

/-! ### `/compare` -/

structure CompareReq where
  topic : String
  doc_ids : List String
  criteria : Option (List String) := none
  k_per_crit : Option ℤ := none
  role : Option String := none
  sector : Option String := none

def DEFAULT_CRITERIA : List String :=
  ["objet/scope", "définitions/références", "pré-requis", "EHS/sécurité",
   "matériel/équipements", "procédure/étapes", "IPC/contrôles",
   "tolérances/paramètres", "fréquences", "responsabilités", "enregistrements"]

def criteriaForTopic (lang : String) : List String :=
  if lang == "en" then
    ["scope", "definitions/references", "prerequisites", "EHS/safety",
     "equipment", "procedure/steps", "IPC/controls",
     "tolerances/parameters", "frequencies", "responsibilities", "records"]
  else DEFAULT_CRITERIA

/-- The criteria list resolved by `/compare` (`req.criteria or
_criteria_for_topic(...)`: an absent or empty list falls back). -/
def compareCrits (req : CompareReq) (topic : String) : List String :=
  match req.criteria with
  | some (c :: cs) => c :: cs
  | _ => criteriaForTopic (if guess_lang topic == "en" then "en" else "fr")

/-- `kpc = max(1, min(6, req.k_per_crit or 3))`. -/
def kpcClamp (v : Option ℤ) : ℕ :=
  (max 1 (min 6 (match v with
    | some x => if x = 0 then 3 else x
    | none => 3))).toNat

/-- One evidence cell of the matrix: spans when available, else the
document-restricted best-chunk fallback ranked by the hybrid score of
`"{topic} {crit}"`. -/
def compareCell (nb : NumBackend) (sn : Snapshot) (role sector : Option String)
    (kpc : ℕ) (topic crit doc_id : String) : List EvItem :=
  let subq := topic ++ " " ++ crit
  let ev := if sn.HAS_SPANS && USE_SPANS then best_spans_for sn doc_id subq kpc
    else []
  if !ev.isEmpty then ev
  else
    let S := score_hybrid_single nb sn subq role sector
    let pairs := (List.range sn.DOCS.length).filter (fun i =>
      (sn.DOCS.getD i dummyChunk).doc_id == doc_id)
    ((sortDescBy (fun i => S.getD i 0) pairs).take kpc).map (fun i =>
      let r := sn.DOCS.getD i dummyChunk
      { text := r.content.take 350, page := r.page,
        chunk_index := some r.chunk_index, span_index := none,
        score := some (S.getD i 0) })

/-- The `cover_counts` accumulation: the literal double loop
(`for crit: for doc_id: cover_counts[doc_id] += int(len(ev) > 0)`) folded over
a counter function initialized to zero on every key. -/
def coverFold (ind : String → String → Bool) (crits docs : List String)
    (f : String → ℕ) : String → ℕ :=
  crits.foldl (fun g crit =>
    docs.foldl (fun g2 d =>
      fun x => if x == d then g2 x + (if ind crit d then 1 else 0) else g2 x)
      g) f

def compareCover (ind : String → String → Bool) (crits docs : List String) :
    String → ℕ :=
  coverFold ind crits docs (fun _ => 0)

/-- The per-document answerability assignment of `/compare`:
`answerability_label([cover_counts[doc_id]], need=1)` (a Python dict keyed by
the document ids; modelled as an association list over the deduplicated
ids — duplicate ids would map to the same label). -/
def compareAnswerability (nb : NumBackend) (sn : Snapshot) (req : CompareReq) :
    List (String × String) :=
  let topic := normalize_codes req.topic
  let crits := compareCrits req topic
  let kpc := kpcClamp req.k_per_crit
  let ind := fun crit d =>
    !(compareCell nb sn req.role req.sector kpc topic crit d).isEmpty
  let cover := compareCover ind crits req.doc_ids
  (firstDedup req.doc_ids).map (fun d =>
    (d, answerability_label [(cover d : ℤ)] 1))

structure CompareResp where
  ok : Bool
  topic : String
  criteria : List String
  matrix : List (String × List (String × List EvItem))
  answerability : List (String × String)

/-- The `/compare` handler. -/
def compare (nb : NumBackend) (bk : Backends) (store : Store) (cur : Snapshot)
    (req : CompareReq) : Except String CompareResp := do
  let sn ← ensure_index cur bk store
  let topic := normalize_codes req.topic
  let crits := compareCrits req topic
  let kpc := kpcClamp req.k_per_crit
  let cell := compareCell nb sn req.role req.sector kpc topic
  pure { ok := true, topic := topic, criteria := crits,
         matrix := crits.map (fun crit =>
           (crit, req.doc_ids.map (fun d => (d, cell crit d)))),
         answerability := compareAnswerability nb sn req }

/-! ### Snapshot well-formedness

The parallel arrays of a snapshot built by `build_index` all have one entry
per chunk, and the fitted backends score every chunk.  The general theorems
assume exactly this shape. -/

def WF (sn : Snapshot) : Prop :=
  sn.TOKS.length = sn.DOCS.length ∧
  sn.FILEN_TOKS.length = sn.DOCS.length ∧
  sn.CODES.length = sn.DOCS.length ∧
  ∀ bk, sn.backends = some bk →
    (∀ ts, (bk.bmScores ts).length = sn.DOCS.length) ∧
    (∀ s, (bk.wordSim s).length = sn.DOCS.length) ∧
    (∀ s, (bk.charSim s).length = sn.DOCS.length)

/-! ### Concrete fixtures for counterexamples and witnesses -/

/-- A numeric backend whose square root is exact on the perfect square used
by the fixtures (every genuine square root agrees there) and whose fuzzy
ratios are identically zero. -/
def exNB : NumBackend :=
  { sqrt := fun x => if x = 1 then 1 else 0,
    ratio := fun _ _ => 0, pratio := fun _ _ => 0 }

/-- Constant fitted structures for a three-chunk corpus with orthonormal row
vectors and a unit-norm query projection. -/
def exBK3 : Backends :=
  { bmScores := fun _ => [0, 0, 0], wordSim := fun _ => [0, 0, 0],
    charSim := fun _ => [0, 0, 0],
    wordQueryVec := fun _ => [4/5, 3/5, 0],
    rowVecs := [[1, 0, 0], [0, 1, 0], [0, 0, 1]] }

def exRowA1 : ChunkRow :=
  { chunk_id := 1, doc_id := "A", chunk_index := 0, content := "alpha",
    filename := "a.pdf" }

def exRowA2 : ChunkRow :=
  { chunk_id := 2, doc_id := "A", chunk_index := 1, content := "beta",
    filename := "a.pdf" }

def exRowB1 : ChunkRow :=
  { chunk_id := 3, doc_id := "B", chunk_index := 0, content := "gamma",
    filename := "b.pdf" }

/-- A three-chunk snapshot: two chunks of document `A`, one of document `B`. -/
def exSnap3 : Snapshot :=
  { DOCS := [exRowA1, exRowA2, exRowB1],
    TOKS := [["alpha"], ["beta"], ["gamma"]],
    FILEN_TOKS := [["a.pdf"], ["a.pdf"], ["b.pdf"]],
    CODES := [[], [], []],
    backends := some exBK3, HAS_SPANS := false, SPANS := [] }

/-- An unreachable store (`psycopg2.connect` raises). -/
def exStoreDown : Store :=
  { reachable := false, chunks := [], synonyms := [], synReadable := false,
    hasSpansTable := false, spans := [] }

/-- A reachable store holding no chunks at all. -/
def exStoreEmpty : Store :=
  { reachable := true, chunks := [], synonyms := [], synReadable := true,
    hasSpansTable := false, spans := [] }

/-- A numeric backend with zero square root (so every z-score divisor is the
`or 1.0` fallback) and identically-zero fuzzy ratios. -/
def c1nb : NumBackend :=
  { sqrt := fun _ => 0, ratio := fun _ _ => 0, pratio := fun _ _ => 0 }

/-- A chunk of document `A` carrying the canonical code `QD-SOP-001234`. -/
def c1row0 : ChunkRow :=
  { chunk_id := 1, doc_id := "A", chunk_index := 0,
    content := "procedure qd-sop-001234", filename := "sop.pdf" }

/-- An otherwise-identical chunk of document `B` carrying no code. -/
def c1row1 : ChunkRow :=
  { chunk_id := 2, doc_id := "B", chunk_index := 0,
    content := "procedure", filename := "sop.pdf" }

/-- Constant fitted structures for the two-chunk code-boost fixture. -/
def c1bk : Backends :=
  { bmScores := fun _ => [0, 0], wordSim := fun _ => [0, 0],
    charSim := fun _ => [0, 0], wordQueryVec := fun _ => [0],
    rowVecs := [[0], [0]] }

/-- A two-chunk snapshot whose chunks differ only in their code sets. -/
def c1snap : Snapshot :=
  { DOCS := [c1row0, c1row1], TOKS := [["procedure"], ["procedure"]],
    FILEN_TOKS := [["sop"], ["sop"]],
    CODES := [["QD-SOP-001234"], []],
    backends := some c1bk, HAS_SPANS := false, SPANS := [] }

/-- Constant fitted structures for the ten-chunk clamping fixture. -/
def c6bk : Backends :=
  { bmScores := fun _ => List.replicate 10 0,
    wordSim := fun _ => List.replicate 10 0,
    charSim := fun _ => List.replicate 10 0,
    wordQueryVec := fun _ => [1],
    rowVecs := List.replicate 10 [1] }

/-- A ten-chunk snapshot over ten distinct documents. -/
def c6snap : Snapshot :=
  { DOCS := (List.range 10).map (fun i =>
      { chunk_id := i, doc_id := toString i, chunk_index := 0,
        content := "alpha", filename := "a.pdf" }),
    TOKS := List.replicate 10 ["alpha"],
    FILEN_TOKS := List.replicate 10 ["a"],
    CODES := List.replicate 10 [],
    backends := some c6bk, HAS_SPANS := false, SPANS := [] }

/-- A `/search` request asking for five results with explicit next-terms. -/
def c6req : SearchReq :=
  { query := "alpha", k := some 5, next_terms := some ["beta"] }

/-- The successful response of the clamping fixture. -/
def c6resp : SearchResp :=
  (search c1nb c6bk exStoreEmpty c6snap c6req).toOption.getD
    { ok := false, anticipated_terms := [], items := [] }

/-- A `/compare` request over one criterion and two document ids, one known
and one absent. -/
def c10req : CompareReq :=
  { topic := "alpha", doc_ids := ["0", "zz"], criteria := some ["beta"] }

/-- The successful response of the compare fixture. -/
def c10resp : CompareResp :=
  (compare c1nb c6bk exStoreEmpty c6snap c10req).toOption.getD
    { ok := false, topic := "", criteria := [], matrix := [],
      answerability := [] }

/-! ## Helper lemmas -/

theorem length_addL (a b : List ℚ) : (addL a b).length = min a.length b.length := by
  simp [addL]

theorem length_smulL (c : ℚ) (a : List ℚ) : (smulL c a).length = a.length := by
  simp [smulL]

theorem length_zList (nb : NumBackend) (a : List ℚ) :
    (zList nb a).length = a.length := by
  unfold zList
  split <;> simp

theorem length_zeros (n : ℕ) : (zeros n).length = n := by
  simp [zeros]

theorem getD_zeros (n i : ℕ) : (zeros n).getD i 0 = 0 := by
  rcases Nat.lt_or_ge i n with h | h
  · rw [List.getD_eq_getElem _ _ (by simpa [zeros] using h)]
    simp [zeros]
  · rw [List.getD_eq_default _ _ (by simpa [zeros] using h)]

theorem getD_addL (a b : List ℚ) (i : ℕ) (h1 : i < a.length) (h2 : i < b.length) :
    (addL a b).getD i 0 = a.getD i 0 + b.getD i 0 := by
  have hl : i < (addL a b).length := by
    rw [length_addL]; exact lt_min h1 h2
  rw [List.getD_eq_getElem _ _ hl, List.getD_eq_getElem _ _ h1,
    List.getD_eq_getElem _ _ h2]
  exact List.getElem_zipWith

theorem getD_smulL (c : ℚ) (a : List ℚ) (i : ℕ) (h : i < a.length) :
    (smulL c a).getD i 0 = c * a.getD i 0 := by
  have hl : i < (smulL c a).length := by rw [length_smulL]; exact h
  rw [List.getD_eq_getElem _ _ hl, List.getD_eq_getElem _ _ h]
  simp [smulL]

theorem getD_map_docs {β : Type} [Inhabited β] (f : β → ℚ) (l : List β) (i : ℕ)
    (h : i < l.length) : ((l.map f).getD i 0) = f (l.getD i default) := by
  have hl : i < (l.map f).length := by simpa using h
  rw [List.getD_eq_getElem _ _ hl, List.getD_eq_getElem _ _ h]
  simp

theorem zList_getD_congr (nb : NumBackend) (a : List ℚ) (i j : ℕ)
    (hi : i < a.length) (hj : j < a.length) (he : a.getD i 0 = a.getD j 0) :
    (zList nb a).getD i 0 = (zList nb a).getD j 0 := by
  unfold zList
  have hne : a.isEmpty = false := by
    cases a with
    | nil => simp at hi
    | cons x xs => simp
  rw [if_neg (by simp [hne])]
  have hi2 : i < (a.map (fun x => (x - meanL a) / stdOr1 nb a)).length := by simpa using hi
  have hj2 : j < (a.map (fun x => (x - meanL a) / stdOr1 nb a)).length := by simpa using hj
  rw [List.getD_eq_getElem _ _ hi2, List.getD_eq_getElem _ _ hj2]
  simp only [List.getElem_map]
  rw [← List.getD_eq_getElem a 0 hi, ← List.getD_eq_getElem a 0 hj, he]

/-! Stable descending sort: permutation, membership, sortedness. -/

theorem insDesc_perm {α : Type} (key : α → ℚ) (x : α) (l : List α) :
    (insDesc key x l).Perm (x :: l) := by
  induction l with
  | nil => simp [insDesc]
  | cons y ys ih =>
    simp only [insDesc]
    split
    · exact List.Perm.refl _
    · exact ((ih.cons y).trans (List.Perm.swap x y ys))

theorem sortDescBy_perm {α : Type} (key : α → ℚ) (l : List α) :
    (sortDescBy key l).Perm l := by
  induction l with
  | nil => simp [sortDescBy]
  | cons x xs ih =>
    simp only [sortDescBy]
    exact (insDesc_perm key x _).trans (ih.cons x)

theorem length_sortDescBy {α : Type} (key : α → ℚ) (l : List α) :
    (sortDescBy key l).length = l.length :=
  (sortDescBy_perm key l).length_eq

theorem mem_sortDescBy {α : Type} (key : α → ℚ) (l : List α) (x : α) :
    x ∈ sortDescBy key l ↔ x ∈ l :=
  (sortDescBy_perm key l).mem_iff

theorem mem_insDesc {α : Type} (key : α → ℚ) (x z : α) (l : List α) :
    z ∈ insDesc key x l ↔ z = x ∨ z ∈ l := by
  rw [(insDesc_perm key x l).mem_iff]
  simp

theorem insDesc_sorted {α : Type} (key : α → ℚ) (x : α) (l : List α)
    (h : l.Pairwise (fun a b => key b ≤ key a)) :
    (insDesc key x l).Pairwise (fun a b => key b ≤ key a) := by
  induction l with
  | nil => simp [insDesc]
  | cons y ys ih =>
    rw [List.pairwise_cons] at h
    simp only [insDesc]
    split
    · rename_i hc
      rw [List.pairwise_cons]
      refine ⟨?_, List.pairwise_cons.mpr h⟩
      intro z hz
      rcases List.mem_cons.mp hz with rfl | hz
      · exact hc
      · exact le_trans (h.1 z hz) hc
    · rename_i hc
      rw [List.pairwise_cons]
      refine ⟨?_, ih h.2⟩
      intro z hz
      rcases (mem_insDesc key x z ys).mp hz with rfl | hz
      · exact le_of_lt (lt_of_not_le hc)
      · exact h.1 z hz

theorem sortDescBy_sorted {α : Type} (key : α → ℚ) (l : List α) :
    (sortDescBy key l).Pairwise (fun a b => key b ≤ key a) := by
  induction l with
  | nil => simp [sortDescBy]
  | cons x xs ih =>
    simp only [sortDescBy]
    exact insDesc_sorted key x _ ih

/-! Insertion-ordered deduplication. -/

theorem mem_addUnique (l : List String) (x z : String) :
    z ∈ addUnique l x ↔ z ∈ l ∨ z = x := by
  unfold addUnique
  split
  · rename_i h
    constructor
    · exact Or.inl
    · rintro (hz | rfl)
      · exact hz
      · exact h
  · simp

theorem mem_addAllUnique (l xs : List String) (z : String) :
    z ∈ addAllUnique l xs ↔ z ∈ l ∨ z ∈ xs := by
  induction xs generalizing l with
  | nil => simp [addAllUnique]
  | cons y ys ih =>
    simp only [addAllUnique, List.foldl_cons] at *
    rw [ih (addUnique l y), mem_addUnique]
    simp only [List.mem_cons]
    tauto

theorem nodup_addUnique (l : List String) (x : String) (h : l.Nodup) :
    (addUnique l x).Nodup := by
  unfold addUnique
  split
  · exact h
  · rename_i hx
    simpa [List.nodup_append] using ⟨h, fun hmem => hx hmem⟩

theorem nodup_addAllUnique (l xs : List String) (h : l.Nodup) :
    (addAllUnique l xs).Nodup := by
  induction xs generalizing l with
  | nil => simpa [addAllUnique]
  | cons y ys ih =>
    simp only [addAllUnique, List.foldl_cons] at *
    exact ih _ (nodup_addUnique l y h)

theorem mem_firstDedup (xs : List String) (z : String) :
    z ∈ firstDedup xs ↔ z ∈ xs := by
  unfold firstDedup
  rw [mem_addAllUnique]
  simp

theorem nodup_firstDedup (xs : List String) : (firstDedup xs).Nodup :=
  nodup_addAllUnique [] xs List.nodup_nil

theorem hasCanonicalCode_iff (codes : List String) :
    hasCanonicalCode codes = true ↔
      ∃ c ∈ codes, c.startsWith "QD-SOP-" = true ∨ c = "IDR" := by
  unfold hasCanonicalCode
  rw [List.any_eq_true]
  constructor
  · rintro ⟨c, hc, hP⟩
    rw [Bool.and_eq_true, Bool.or_eq_true] at hP
    refine ⟨c, hc, ?_⟩
    rcases hP.1 with h | h
    · exact Or.inl h
    · exact Or.inr (by simpa using h)
  · rintro ⟨c, hc, hP⟩
    refine ⟨c, hc, ?_⟩
    have hne : c ≠ "" := by
      rcases hP with h | rfl
      · intro he
        subst he
        exact absurd h (by decide)
      · decide
    rw [Bool.and_eq_true, Bool.or_eq_true]
    refine ⟨?_, by simpa using hne⟩
    rcases hP with h | rfl
    · exact Or.inl h
    · exact Or.inr (by decide)

/-! ## Claim theorems -/

/-- C9: the answerability classifier counts the entities whose evidence count
is positive and returns CERTAIN when that count is at least `need`, PARTIAL
when it is exactly one (and below `need`), and NR otherwise; in particular
with `need = 2`, counts `[1,0,1]` yield CERTAIN, `[1,0,0]` yield PARTIAL and
`[0,0,0]` yield NR. -/
theorem C9_answerability_classifier (counts : List ℤ) (need : ℕ) :
    (need ≤ (counts.filter (fun c => 0 < c)).length →
      answerability_label counts need = "CERTAIN") ∧
    ((counts.filter (fun c => 0 < c)).length < need →
      (counts.filter (fun c => 0 < c)).length = 1 →
      answerability_label counts need = "PARTIAL") ∧
    ((counts.filter (fun c => 0 < c)).length < need →
      (counts.filter (fun c => 0 < c)).length ≠ 1 →
      answerability_label counts need = "NR") ∧
    answerability_label [1, 0, 1] 2 = "CERTAIN" ∧
    answerability_label [1, 0, 0] 2 = "PARTIAL" ∧
    answerability_label [0, 0, 0] 2 = "NR" := by
  refine ⟨?_, ?_, ?_, by decide, by decide, by decide⟩
  · intro h
    simp only [answerability_label]
    rw [if_pos h]
  · intro h1 h2
    simp only [answerability_label]
    rw [if_neg (by omega), if_pos h2]
  · intro h1 h2
    simp only [answerability_label]
    rw [if_neg (by omega), if_neg h2]

theorem C9_witness :
    answerability_label [2, 0, 0, 5] 2 = "CERTAIN" :=
  (C9_answerability_classifier [2, 0, 0, 5] 2).1 (by decide)

/-- C5: with the relevance oracle unavailable, the final blend assigns every
candidate `final = 0.80 * fused + 0.15 * coverage + 0.05 * code_flag`, where
`code_flag` is 1 exactly when the chunk carries a canonical (`QD-SOP-`)
procedure code or the inspection-report marker, and the candidate list is
sorted descending by that final score (stably, preserving the pool). -/
theorem C5_no_oracle_blend (items : List Candidate) :
    (∀ c ∈ blendNoCE items,
      ((∃ code ∈ c.codes, code.startsWith "QD-SOP-" = true ∨ code = "IDR") →
        c.score_final = 0.80 * c.score + 0.15 * c.coverage + 0.05) ∧
      ((¬ ∃ code ∈ c.codes, code.startsWith "QD-SOP-" = true ∨ code = "IDR") →
        c.score_final = 0.80 * c.score + 0.15 * c.coverage)) ∧
    (blendNoCE items).Pairwise (fun a b => b.score_final ≤ a.score_final) ∧
    (blendNoCE items).length = items.length := by
  refine ⟨?_, ?_, ?_⟩
  · intro c hc
    unfold blendNoCE at hc
    rw [mem_sortDescBy, List.mem_map] at hc
    obtain ⟨c0, _, rfl⟩ := hc
    constructor
    · intro hex
      have : hasCanonicalCode c0.codes = true := (hasCanonicalCode_iff _).mpr hex
      simp [this]
    · intro hex
      have : hasCanonicalCode c0.codes = false := by
        rcases Bool.eq_false_or_eq_true (hasCanonicalCode c0.codes) with h | h
        · exact absurd ((hasCanonicalCode_iff _).mp h) hex
        · exact h
      simp [this]
  · unfold blendNoCE
    exact sortDescBy_sorted _ _
  · unfold blendNoCE
    rw [length_sortDescBy]
    simp

theorem addL_nil (b : List ℚ) : addL [] b = [] := by
  simp [addL]

theorem foldl_addL_keep_nil {β : Type} (f : β → List ℚ) (l : List β) :
    l.foldl (fun S p => addL S (f p)) [] = [] := by
  induction l with
  | nil => rfl
  | cons x xs ih =>
    simp only [List.foldl_cons, addL_nil]
    exact ih

theorem aggregate_nil (nb : NumBackend) (store : Store) (sn : Snapshot)
    (q : String) (role sector : Option String) (nt : Option (List String))
    (h : sn.DOCS = []) :
    aggregate_over_subqueries nb store sn q role sector nt = [] := by
  unfold aggregate_over_subqueries
  rw [h]
  exact foldl_addL_keep_nil _ _

/-- C8 counterexample: with no reachable corpus store and no index built yet,
a `/search` request does not come back as a success with empty results — the
rebuild attempted on the query path propagates the connection failure. -/
theorem C8_counterexample :
    ¬ (∀ (nb : NumBackend) (bk : Backends) (store : Store) (cur : Snapshot)
        (req : SearchReq), store.reachable = false →
        ∃ resp, search nb bk store cur req = Except.ok resp) := by
  intro h
  obtain ⟨resp, hresp⟩ := h exNB exBK3 exStoreDown emptySnapshot
    { query := "q" } rfl
  have he : search exNB exBK3 exStoreDown emptySnapshot { query := "q" } =
      Except.error "could not connect to corpus store" := rfl
  rw [he] at hresp
  exact Except.noConfusion hresp

/-- C8 (amended): once an index snapshot exists, the `/search` query path
always returns a success (per-query store lookups degrade gracefully); only a
request arriving before any successful build, or an explicit rebuild, against
a wholly unreachable store propagates the diagnostic failure. -/
theorem C8_no_store_behavior (nb : NumBackend) (bk : Backends) (store : Store)
    (cur : Snapshot) (req : SearchReq) :
    (cur.DOCS ≠ [] → ∃ resp, search nb bk store cur req = Except.ok resp) ∧
    (store.reachable = false →
      reindex bk store = Except.error "could not connect to corpus store") ∧
    (store.reachable = false → cur.DOCS = [] →
      search nb bk store cur req =
        Except.error "could not connect to corpus store") := by
  refine ⟨?_, ?_, ?_⟩
  · intro hne
    have h1 : cur.DOCS.isEmpty = false := by
      cases hD : cur.DOCS with
      | nil => exact absurd hD hne
      | cons a l => simp [hD]
    unfold search ensure_index
    rw [if_neg (by simp [h1])]
    exact ⟨_, rfl⟩
  · intro h
    unfold reindex build_index
    rw [if_neg (by simp [h])]
  · intro h hD
    unfold search ensure_index build_index
    rw [if_pos (by simp [hD]), if_neg (by simp [h])]
    rfl

theorem C8_no_store_witness :
    (∃ resp, search exNB exBK3 exStoreDown exSnap3 { query := "q" } =
      Except.ok resp) ∧
    reindex exBK3 exStoreDown =
      Except.error "could not connect to corpus store" :=
  ⟨(C8_no_store_behavior exNB exBK3 exStoreDown exSnap3 { query := "q" }).1
      (by simp [exSnap3]),
   (C8_no_store_behavior exNB exBK3 exStoreDown exSnap3 { query := "q" }).2.1 rfl⟩

/-- C7: rebuilding over a store with zero chunks succeeds with an empty index:
`/health` reports zero chunks and no fitted signal structures, every raw
signal array is empty (each signal degrades to zero on the empty corpus), and
`/search` against that state answers with HTTP success and an empty item
list, not an error. -/
theorem C7_empty_corpus (nb : NumBackend) (bk : Backends) (store : Store)
    (cur : Snapshot) (req : SearchReq) (q0 : String)
    (hreach : store.reachable = true) (hempty : store.chunks = [])
    (hcur : cur.DOCS = []) :
    (∃ sn, reindex bk store = Except.ok sn ∧
      (health sn store).chunks = 0 ∧
      (health sn store).bm25 = false ∧
      (health sn store).tfidf_word = false ∧
      (health sn store).tfidf_char = false ∧
      sn.backends = none ∧
      (score_arrays_for_query nb sn q0).bm = [] ∧
      (score_arrays_for_query nb sn q0).tfw = [] ∧
      (score_arrays_for_query nb sn q0).tfc = [] ∧
      (score_arrays_for_query nb sn q0).fname = [] ∧
      (score_arrays_for_query nb sn q0).code = [] ∧
      (score_arrays_for_query nb sn q0).fuzzy = []) ∧
    (∃ resp, search nb bk store cur req = Except.ok resp ∧
      resp.ok = true ∧ resp.items = []) := by
  constructor
  · refine ⟨emptyBuilt store, ?_, ?_, ?_, ?_, ?_, ?_, ?_, ?_, ?_, ?_, ?_, ?_⟩
    · unfold reindex build_index
      rw [if_pos (by simp [hreach])]
      simp [hempty, emptyBuilt]
    all_goals simp [health, score_arrays_for_query, zeros, emptyBuilt]
  · have hb : build_index bk store = Except.ok (emptyBuilt store) := by
      unfold build_index
      rw [if_pos (by simp [hreach])]
      simp [hempty, emptyBuilt]
    unfold search ensure_index
    rw [if_pos (by simp [hcur]), hb]
    have hS : aggregate_over_subqueries nb store (emptyBuilt store)
        (normalize_codes req.query) req.role req.sector
        (some (if ((req.next_terms.getD []).take 5).isEmpty then
          predict_next_terms (normalize_codes req.query) none 5
        else (req.next_terms.getD []).take 5)) = [] :=
      aggregate_nil _ _ _ _ _ _ _ rfl
    refine ⟨_, rfl, rfl, ?_⟩
    simp only [deep_candidates, hS]
    simp

theorem C7_empty_corpus_witness :
    ∃ resp, search exNB exBK3 exStoreEmpty emptySnapshot { query := "hello" } =
      Except.ok resp ∧ resp.ok = true ∧ resp.items = [] :=
  (C7_empty_corpus exNB exBK3 exStoreEmpty emptySnapshot { query := "hello" }
    "hello" rfl rfl rfl).2

/-! Length facts about the scoring pipeline (well-formed snapshots). -/

theorem length_arrays (nb : NumBackend) (sn : Snapshot) (q : String)
    (hwf : WF sn) :
    (score_arrays_for_query nb sn q).bm.length = sn.DOCS.length ∧
    (score_arrays_for_query nb sn q).tfw.length = sn.DOCS.length ∧
    (score_arrays_for_query nb sn q).tfc.length = sn.DOCS.length ∧
    (score_arrays_for_query nb sn q).fname.length = sn.DOCS.length ∧
    (score_arrays_for_query nb sn q).code.length = sn.DOCS.length ∧
    (score_arrays_for_query nb sn q).fuzzy.length = sn.DOCS.length := by
  obtain ⟨ht, hf, hc, hb⟩ := hwf
  unfold score_arrays_for_query
  refine ⟨?_, ?_, ?_, ?_, ?_, ?_⟩
  · cases hbk : sn.backends with
    | none => simp [length_zeros]
    | some bk =>
      simp only
      split
      · simp [length_zeros]
      · exact (hb bk hbk).1 _
  · cases hbk : sn.backends with
    | none => simp [length_zeros]
    | some bk => exact (hb bk hbk).2.1 _
  · cases hbk : sn.backends with
    | none => simp [length_zeros]
    | some bk => exact (hb bk hbk).2.2 _
  · simpa using hf
  · simpa using hc
  · by_cases h5 : 5 ≤ (norm q).length
    · simp [h5]
    · simp [h5, length_zeros]

theorem length_combine (nb : NumBackend) (a : SignalArrays) (n : ℕ)
    (h1 : a.bm.length = n) (h2 : a.tfw.length = n) (h3 : a.tfc.length = n)
    (h4 : a.fname.length = n) (h5 : a.code.length = n)
    (h6 : a.fuzzy.length = n) :
    (combine_scores nb a).length = n := by
  unfold combine_scores
  simp [length_addL, length_smulL, length_zList, h1, h2, h3, h4, h5, h6]

theorem length_score_hybrid (nb : NumBackend) (sn : Snapshot) (q : String)
    (role sector : Option String) (hwf : WF sn) :
    (score_hybrid_single nb sn q role sector).length = sn.DOCS.length := by
  obtain ⟨ha1, ha2, ha3, ha4, ha5, ha6⟩ := length_arrays nb sn q hwf
  unfold score_hybrid_single
  rw [length_addL, length_addL,
    length_combine nb _ sn.DOCS.length ha1 ha2 ha3 ha4 ha5 ha6]
  simp

/-- Value/length fact for the aggregation fold: folding `S += w * hybrid(sq)`
from an all-zero accumulator yields, per chunk, the weighted sum of the
per-variant scores. -/
theorem foldl_addL_spec (f : String → List ℚ) (n : ℕ)
    (hf : ∀ s, (f s).length = n) (L : List (ℚ × String)) :
    ∀ (init : List ℚ), init.length = n →
      (L.foldl (fun S p => addL S (smulL p.1 (f p.2))) init).length = n ∧
      ∀ i, i < n →
        (L.foldl (fun S p => addL S (smulL p.1 (f p.2))) init).getD i 0 =
          init.getD i 0 + (L.map (fun p => p.1 * (f p.2).getD i 0)).sum := by
  induction L with
  | nil => intro init hinit; exact ⟨hinit, fun i _ => by simp⟩
  | cons p ps ih =>
    intro init hinit
    have hstep : (addL init (smulL p.1 (f p.2))).length = n := by
      rw [length_addL, length_smulL, hinit, hf]
      simp
    obtain ⟨hlen, hval⟩ := ih (addL init (smulL p.1 (f p.2))) hstep
    refine ⟨hlen, fun i hi => ?_⟩
    simp only [List.foldl_cons]
    rw [hval i hi, getD_addL _ _ _ (by omega) (by rw [length_smulL, hf]; omega),
      getD_smulL _ _ _ (by rw [hf]; omega)]
    simp [List.map_cons, List.sum_cons]
    ring

/-! Linspace weight facts. -/

theorem linspace_eq_map (a b : ℚ) (m : ℕ) :
    linspace a b (m + 2) = (List.range (m + 2)).map
      (fun (i : ℕ) => a + (b - a) * (i : ℚ) / ((m : ℚ) + 1)) := rfl

theorem linspace_length (a b : ℚ) (n : ℕ) : (linspace a b n).length = n := by
  match n with
  | 0 => rfl
  | 1 => rfl
  | m + 2 => rw [linspace_eq_map, List.length_map, List.length_range]

theorem linspace_head (a b : ℚ) (n : ℕ) (h : 1 ≤ n) :
    (linspace a b n).head? = some a := by
  match n with
  | 1 => rfl
  | m + 2 =>
    rw [linspace_eq_map, List.range_succ_eq_map]
    simp

theorem linspace_getD (a b : ℚ) (m i : ℕ) (h : i < m + 2) :
    (linspace a b (m + 2)).getD i 0 = a + (b - a) * i / (m + 1) := by
  rw [linspace_eq_map,
    List.getD_eq_getElem _ _ (by rw [List.length_map, List.length_range]; exact h)]
  simp

theorem linspace_last (a b : ℚ) (m : ℕ) :
    (linspace a b (m + 2)).getD (m + 1) 0 = b := by
  rw [linspace_getD a b m (m + 1) (by omega)]
  have hne : ((m : ℚ) + 1) ≠ 0 := by positivity
  push_cast
  field_simp

theorem linspace_step (a b : ℚ) (m i : ℕ) (h : i + 1 < m + 2) :
    (linspace a b (m + 2)).getD (i + 1) 0 - (linspace a b (m + 2)).getD i 0 =
      (b - a) / (m + 1) := by
  rw [linspace_getD a b m (i + 1) h, linspace_getD a b m i (by omega)]
  have hne : ((m : ℚ) + 1) ≠ 0 := by positivity
  push_cast
  field_simp
  ring

/-- C4 counterexample: the scored variant list can have 11 entries — the
generated variant set reaches the cap of 10, and `aggregate_over_subqueries`
prepends the original query to the capped list once more. -/
theorem C4_counterexample :
    ¬ (∀ (store : Store) (q : String) (nt : Option (List String)),
        (scoredVariants store q nt).length ≤ 10) := by
  intro h
  have hc := h exStoreDown "SOP 1111 SOP 2222"
    (some ["alpha", "beta", "gamma", "delta", "epsilon"])
  have he : (scoredVariants exStoreDown "SOP 1111 SOP 2222"
      (some ["alpha", "beta", "gamma", "delta", "epsilon"])).length = 11 := by
    decide
  omega

/-- C4 (amended): the scored variant list is the original query prepended to
the (capped at 10) generated variant set — hence at most 11 entries, with the
original query first; the weight list is `linspace(1.0, 0.6, len)`: first
weight 1.0, last weight 0.6, linearly decreasing in equal steps; and the
per-chunk aggregated score is the weighted sum of the per-variant fused
scores.  (The variant set itself also contains the original query, but the
source caps it with `list(subs)[:10]` over a hash-ordered set, so no claim is
made about which elements survive the cap.) -/
theorem C4_variant_weighting (nb : NumBackend) (store : Store) (sn : Snapshot)
    (q : String) (role sector : Option String) (nt : Option (List String))
    (hwf : WF sn) :
    (scoredVariants store q nt).length ≤ 11 ∧
    (scoredVariants store q nt).head? = some q ∧
    (linspace 1 0.6 (scoredVariants store q nt).length).head? = some 1 ∧
    (∀ m, (scoredVariants store q nt).length = m + 2 →
      (linspace 1 0.6 (m + 2)).getD (m + 1) 0 = 0.6 ∧
      ∀ i, i + 1 < m + 2 →
        (linspace 1 0.6 (m + 2)).getD (i + 1) 0 -
          (linspace 1 0.6 (m + 2)).getD i 0 = (0.6 - 1) / (m + 1)) ∧
    (∀ i, i < sn.DOCS.length →
      (aggregate_over_subqueries nb store sn q role sector nt).getD i 0 =
        ((List.zip (linspace 1 0.6 (scoredVariants store q nt).length)
          (scoredVariants store q nt)).map
            (fun p => p.1 *
              (score_hybrid_single nb sn p.2 role sector).getD i 0)).sum) := by
  have h10 : (generate_subqueries store q nt).length ≤ 10 := by
    unfold generate_subqueries
    simp only [List.length_take]
    omega
  refine ⟨?_, ?_, ?_, ?_, ?_⟩
  · unfold scoredVariants
    simp only [List.length_cons]
    omega
  · unfold scoredVariants
    rfl
  · rw [linspace_head]
    unfold scoredVariants
    simp
  · intro m hm
    exact ⟨linspace_last 1 0.6 m, fun i hi => linspace_step 1 0.6 m i hi⟩
  · intro i hi
    unfold aggregate_over_subqueries
    have hspec := (foldl_addL_spec
      (fun s => score_hybrid_single nb sn s role sector) sn.DOCS.length
      (fun s => length_score_hybrid nb sn s role sector hwf)
      (List.zip (linspace 1 0.6 (scoredVariants store q nt).length)
        (scoredVariants store q nt))
      (zeros sn.DOCS.length) (length_zeros _)).2 i hi
    rw [hspec, getD_zeros]
    ring

theorem WF_exSnap3 : WF exSnap3 := by
  refine ⟨rfl, rfl, rfl, ?_⟩
  intro bk hbk
  injection hbk with h
  subst h
  exact ⟨fun _ => rfl, fun _ => rfl, fun _ => rfl⟩

theorem C4_variant_weighting_witness :
    (scoredVariants exStoreDown "waste sop" none).length ≤ 11 ∧
    (scoredVariants exStoreDown "waste sop" none).head? = some "waste sop" :=
  ⟨(C4_variant_weighting exNB exStoreDown exSnap3 "waste sop" none none none
      WF_exSnap3).1,
   (C4_variant_weighting exNB exStoreDown exSnap3 "waste sop" none none none
      WF_exSnap3).2.1⟩

/-! Greedy MMR loop invariants. -/

theorem argmaxFirst_mem (f : ℕ → ℚ) :
    ∀ (l : List ℕ) (x : ℕ), argmaxFirst f l = some x → x ∈ l := by
  intro l
  induction l with
  | nil => intro x h; exact absurd h (by simp [argmaxFirst])
  | cons a as ih =>
    intro x h
    unfold argmaxFirst at h
    cases hrec : argmaxFirst f as with
    | none =>
      simp only [hrec] at h
      injection h with h2
      subst h2
      exact List.mem_cons_self a as
    | some y =>
      simp only [hrec] at h
      by_cases hlt : f a < f y
      · rw [if_pos hlt] at h
        injection h with h2
        subst h2
        exact List.mem_cons_of_mem a (ih y hrec)
      · rw [if_neg hlt] at h
        injection h with h2
        subst h2
        exact List.mem_cons_self a as

theorem argmaxFirst_isSome (f : ℕ → ℚ) (l : List ℕ) (h : l ≠ []) :
    (argmaxFirst f l).isSome := by
  cases l with
  | nil => exact absurd rfl h
  | cons a as =>
    unfold argmaxFirst
    cases hrec : argmaxFirst f as with
    | none => simp
    | some y =>
      by_cases hlt : f a < f y
      · simp [hlt]
      · simp [hlt]

theorem mmrLoop_spec (rel : ℕ → ℚ) (sim : ℕ → ℕ → ℚ) (lam : ℚ) (bound : ℕ) :
    ∀ (fuel : ℕ) (avail sel : List ℕ),
      avail.length ≤ fuel → sel.length ≤ bound →
      (mmrLoop rel sim lam bound fuel avail sel).length =
          min (sel.length + avail.length) bound ∧
      (∀ x ∈ mmrLoop rel sim lam bound fuel avail sel, x ∈ sel ∨ x ∈ avail) ∧
      (∀ x ∈ sel, x ∈ mmrLoop rel sim lam bound fuel avail sel) ∧
      (sel.Nodup → avail.Nodup → (∀ x ∈ sel, x ∉ avail) →
        (mmrLoop rel sim lam bound fuel avail sel).Nodup) := by
  intro fuel
  induction fuel with
  | zero =>
    intro avail sel hf hs
    have hav : avail = [] := List.length_eq_zero.mp (Nat.le_zero.mp hf)
    subst hav
    unfold mmrLoop
    exact ⟨by simpa using (Nat.min_eq_left hs).symm,
      fun x hx => Or.inl hx, fun x hx => hx, fun h1 _ _ => h1⟩
  | succ fuel ih =>
    intro avail sel hf hs
    unfold mmrLoop
    by_cases hstop : avail.isEmpty || decide (bound ≤ sel.length)
    · rw [if_pos hstop]
      rcases Bool.or_eq_true _ _ |>.mp hstop with he | hb
      · have : avail = [] := by simpa using he
        subst this
        exact ⟨by simpa using (Nat.min_eq_left hs).symm,
          fun x hx => Or.inl hx, fun x hx => hx, fun h1 _ _ => h1⟩
      · have hbd : bound ≤ sel.length := of_decide_eq_true hb
        have heq : sel.length = bound := le_antisymm hs hbd
        exact ⟨by omega, fun x hx => Or.inl hx, fun x hx => hx,
          fun h1 _ _ => h1⟩
    · rw [if_neg hstop]
      simp only [Bool.or_eq_true, decide_eq_true_eq, not_or] at hstop
      have hne : avail ≠ [] := by
        intro he
        subst he
        simp at hstop
      have hlt : sel.length < bound := by
        rcases Nat.lt_or_ge sel.length bound with h | h
        · exact h
        · exact absurd h hstop.2
      obtain ⟨c, hc⟩ : ∃ c, (match sel with
          | [] => argmaxFirst rel avail
          | _ :: _ => argmaxFirst
              (fun i => lam * rel i - (1 - lam) * maxSimTo sim i sel)
              avail) = some c := by
        cases sel with
        | nil => exact Option.isSome_iff_exists.mp (argmaxFirst_isSome _ _ hne)
        | cons a as =>
          exact Option.isSome_iff_exists.mp (argmaxFirst_isSome _ _ hne)
      rw [hc]
      have hcmem : c ∈ avail := by
        cases sel with
        | nil => exact argmaxFirst_mem _ _ _ hc
        | cons a as => exact argmaxFirst_mem _ _ _ hc
      have hpos : 1 ≤ avail.length := List.length_pos.mpr hne
      have hlenE : (avail.erase c).length = avail.length - 1 :=
        List.length_erase_of_mem hcmem
      have h1 : (avail.erase c).length ≤ fuel := by omega
      have h2 : (sel ++ [c]).length ≤ bound := by
        simp only [List.length_append, List.length_singleton]
        omega
      obtain ⟨ihl, ihm, ihs, ihn⟩ := ih (avail.erase c) (sel ++ [c]) h1 h2
      refine ⟨?_, ?_, ?_, ?_⟩
      · rw [ihl]
        simp only [List.length_append, List.length_singleton, hlenE]
        congr 1
        omega
      · intro x hx
        rcases ihm x hx with hx1 | hx2
        · rcases List.mem_append.mp hx1 with h | h
          · exact Or.inl h
          · rw [List.mem_singleton] at h
            subst h
            exact Or.inr hcmem
        · exact Or.inr (List.mem_of_mem_erase hx2)
      · intro x hx
        exact ihs x (List.mem_append_left _ hx)
      · intro hns hna hdisj
        apply ihn
        · rw [List.nodup_append]
          refine ⟨hns, List.nodup_singleton c, ?_⟩
          intro x hx hxc
          rw [List.mem_singleton] at hxc
          subst hxc
          exact hdisj x hx hcmem
        · exact hna.erase c
        · intro x hx
          rcases List.mem_append.mp hx with h | h
          · intro hxe
            exact hdisj x h (List.mem_of_mem_erase hxe)
          · rw [List.mem_singleton] at h
            subst h
            intro hxe
            exact ((List.Nodup.mem_erase_iff hna).mp hxe).1 rfl

theorem mmr_from_rows_spec (rowvecs : List (List ℚ)) (qv : List ℚ) (lam : ℚ)
    (limit : ℕ) :
    (mmr_from_rows rowvecs qv lam limit).length = min limit rowvecs.length ∧
    (∀ x ∈ mmr_from_rows rowvecs qv lam limit, x < rowvecs.length) ∧
    (mmr_from_rows rowvecs qv lam limit).Nodup := by
  obtain ⟨hl, hm, _, hn⟩ := mmrLoop_spec
    (fun i => dotL (rowvecs.getD i []) qv)
    (fun i j => dotL (rowvecs.getD i []) (rowvecs.getD j []))
    lam (min limit rowvecs.length) rowvecs.length
    (List.range rowvecs.length) [] (by simp) (by simp)
  unfold mmr_from_rows
  refine ⟨?_, ?_, ?_⟩
  · rw [hl]
    simp only [List.length_nil, List.length_range, Nat.zero_add]
    omega
  · intro x hx
    rcases hm x hx with h | h
    · exact absurd h (List.not_mem_nil x)
    · exact List.mem_range.mp h
  · exact hn List.nodup_nil (List.nodup_range _) (by simp)

theorem mmr_from_rows_complete (rowvecs : List (List ℚ)) (qv : List ℚ)
    (lam : ℚ) (limit : ℕ) (h : rowvecs.length ≤ limit) :
    ∀ i, i < rowvecs.length → i ∈ mmr_from_rows rowvecs qv lam limit := by
  obtain ⟨hl, hm, hn⟩ := mmr_from_rows_spec rowvecs qv lam limit
  intro i hi
  have hlen : (mmr_from_rows rowvecs qv lam limit).length = rowvecs.length := by
    omega
  have hsub : (mmr_from_rows rowvecs qv lam limit).toFinset ⊆
      (List.range rowvecs.length).toFinset := by
    intro x hx
    rw [List.mem_toFinset] at *
    exact List.mem_range.mpr (hm x hx)
  have hcard1 : (mmr_from_rows rowvecs qv lam limit).toFinset.card =
      rowvecs.length := by
    rw [List.toFinset_card_of_nodup hn, hlen]
  have hcard2 : (List.range rowvecs.length).toFinset.card = rowvecs.length := by
    rw [List.toFinset_card_of_nodup (List.nodup_range _), List.length_range]
  have heq : (mmr_from_rows rowvecs qv lam limit).toFinset =
      (List.range rowvecs.length).toFinset :=
    Finset.eq_of_subset_of_card_le hsub (by omega)
  have : i ∈ (List.range rowvecs.length).toFinset := by
    rw [List.mem_toFinset]
    exact List.mem_range.mpr hi
  rw [← heq, List.mem_toFinset] at this
  exact this

theorem getD_mem {α : Type} (l : List α) (d : α) (i : ℕ) (h : i < l.length) :
    l.getD i d ∈ l := by
  rw [List.getD_eq_getElem _ _ h]
  exact List.getElem_mem h

theorem codeBoostTerm_nonneg (nb : NumBackend) (codes : List String)
    (q' : String) : 0 ≤ codeBoostTerm nb codes q' := by
  unfold codeBoostTerm
  split
  · norm_num
  · split
    · norm_num
    · norm_num

theorem codeBoostTerm_le_cons (nb : NumBackend) (Cj : List String)
    (qc q' : String) :
    codeBoostTerm nb Cj q' ≤ codeBoostTerm nb (qc :: Cj) q' := by
  unfold codeBoostTerm
  by_cases h1 : Cj.contains q' = true
  · have h2 : (qc :: Cj).contains q' = true := by
      rw [List.elem_iff] at h1 ⊢
      exact List.mem_cons_of_mem qc h1
    rw [if_pos h1, if_pos h2]
  · by_cases h4 : (Cj.any fun c =>
        decide (90 ≤ nb.ratio (lowerStr q') (lowerStr c))) = true
    · have h5 : ((qc :: Cj).any fun c =>
          decide (90 ≤ nb.ratio (lowerStr q') (lowerStr c))) = true := by
        rw [List.any_eq_true] at h4 ⊢
        obtain ⟨c, hc, hp⟩ := h4
        exact ⟨c, List.mem_cons_of_mem qc hc, hp⟩
      rw [if_neg h1, if_pos h4]
      by_cases h3 : (qc :: Cj).contains q' = true
      · rw [if_pos h3]
        norm_num
      · rw [if_neg h3, if_pos h5]
    · rw [if_neg h1, if_neg h4]
      by_cases h3 : (qc :: Cj).contains q' = true
      · rw [if_pos h3]
        norm_num
      · rw [if_neg h3]
        split
        · norm_num
        · norm_num

theorem codeBoostTerm_self_le (nb : NumBackend) (Cj : List String) (qc : String)
    (hnot : qc ∉ Cj) : codeBoostTerm nb Cj qc ≤ 0.7 := by
  unfold codeBoostTerm
  have hcf : ¬ (Cj.contains qc = true) := by
    rw [List.elem_iff]
    exact hnot
  rw [if_neg hcf]
  split
  · norm_num
  · norm_num

theorem codeBoostTerm_self_cons (nb : NumBackend) (Cj : List String)
    (qc : String) : codeBoostTerm nb (qc :: Cj) qc = 1.25 := by
  unfold codeBoostTerm
  rw [if_pos (by rw [List.elem_iff]; exact List.mem_cons_self qc Cj)]

theorem codeBoost_lt (nb : NumBackend) (qCodes Cj : List String) (qc : String)
    (hmem : qc ∈ qCodes) (hnot : qc ∉ Cj) :
    codeBoost nb qCodes Cj < codeBoost nb qCodes (qc :: Cj) := by
  obtain ⟨l1, l2, rfl⟩ := List.append_of_mem hmem
  unfold codeBoost
  have hne2 : ¬ ((qc :: Cj).isEmpty = true) := by simp
  rw [if_neg hne2]
  have hsumL : ((l1 ++ qc :: l2).map (codeBoostTerm nb (qc :: Cj))).sum =
      ((l1.map (codeBoostTerm nb (qc :: Cj))).sum +
        (codeBoostTerm nb (qc :: Cj) qc +
          (l2.map (codeBoostTerm nb (qc :: Cj))).sum)) := by
    rw [List.map_append, List.sum_append, List.map_cons, List.sum_cons]
  by_cases hCj : Cj.isEmpty
  · rw [if_pos hCj, hsumL, codeBoostTerm_self_cons]
    have h1 : 0 ≤ (l1.map (codeBoostTerm nb (qc :: Cj))).sum :=
      List.sum_nonneg (by
        intro x hx
        rw [List.mem_map] at hx
        obtain ⟨c, _, rfl⟩ := hx
        exact codeBoostTerm_nonneg nb _ c)
    have h2 : 0 ≤ (l2.map (codeBoostTerm nb (qc :: Cj))).sum :=
      List.sum_nonneg (by
        intro x hx
        rw [List.mem_map] at hx
        obtain ⟨c, _, rfl⟩ := hx
        exact codeBoostTerm_nonneg nb _ c)
    linarith
  · rw [if_neg hCj, hsumL]
    have hsumR : ((l1 ++ qc :: l2).map (codeBoostTerm nb Cj)).sum =
        ((l1.map (codeBoostTerm nb Cj)).sum +
          (codeBoostTerm nb Cj qc + (l2.map (codeBoostTerm nb Cj)).sum)) := by
      rw [List.map_append, List.sum_append, List.map_cons, List.sum_cons]
    rw [hsumR]
    have hm1 : (l1.map (codeBoostTerm nb Cj)).sum ≤
        (l1.map (codeBoostTerm nb (qc :: Cj))).sum :=
      List.sum_le_sum (by
        intro c _
        exact codeBoostTerm_le_cons nb Cj qc c)
    have hm2 : (l2.map (codeBoostTerm nb Cj)).sum ≤
        (l2.map (codeBoostTerm nb (qc :: Cj))).sum :=
      List.sum_le_sum (by
        intro c _
        exact codeBoostTerm_le_cons nb Cj qc c)
    have hq1 : codeBoostTerm nb Cj qc ≤ 0.7 := codeBoostTerm_self_le nb Cj qc hnot
    have hq2 : codeBoostTerm nb (qc :: Cj) qc = 1.25 :=
      codeBoostTerm_self_cons nb Cj qc
    rw [hq2]
    linarith

theorem chunkRow_default : (default : ChunkRow) = dummyChunk := rfl

theorem comb_core (c1 c2 c3 c6 : ℚ) (v1 v2 v3 u4 u5 u6 : List ℚ) (n : ℕ)
    (hl1 : v1.length = n) (hl2 : v2.length = n) (hl3 : v3.length = n)
    (hl4 : u4.length = n) (hl5 : u5.length = n) (hl6 : u6.length = n)
    (x : ℕ) (hx : x < n) :
    (addL (addL (addL (addL (addL (smulL c1 v1) (smulL c2 v2)) (smulL c3 v3))
      u4) u5) (smulL c6 u6)).getD x 0 =
      c1 * v1.getD x 0 + c2 * v2.getD x 0 + c3 * v3.getD x 0 +
      u4.getD x 0 + u5.getD x 0 + c6 * u6.getD x 0 := by
  have m1 : (smulL c1 v1).length = n := by rw [length_smulL, hl1]
  have m2 : (smulL c2 v2).length = n := by rw [length_smulL, hl2]
  have m3 : (smulL c3 v3).length = n := by rw [length_smulL, hl3]
  have m6 : (smulL c6 u6).length = n := by rw [length_smulL, hl6]
  have a12 : (addL (smulL c1 v1) (smulL c2 v2)).length = n := by
    rw [length_addL, m1, m2]
    simp
  have a123 : (addL (addL (smulL c1 v1) (smulL c2 v2))
      (smulL c3 v3)).length = n := by
    rw [length_addL, a12, m3]
    simp
  have a4 : (addL (addL (addL (smulL c1 v1) (smulL c2 v2)) (smulL c3 v3))
      u4).length = n := by
    rw [length_addL, a123, hl4]
    simp
  have a5 : (addL (addL (addL (addL (smulL c1 v1) (smulL c2 v2))
      (smulL c3 v3)) u4) u5).length = n := by
    rw [length_addL, a4, hl5]
    simp
  rw [getD_addL, getD_addL, getD_addL, getD_addL, getD_addL,
    getD_smulL, getD_smulL, getD_smulL, getD_smulL]
  all_goals first
  | (rw [a5]; exact hx)
  | (rw [a4]; exact hx)
  | (rw [a123]; exact hx)
  | (rw [a12]; exact hx)
  | (rw [m1]; exact hx)
  | (rw [m2]; exact hx)
  | (rw [m3]; exact hx)
  | (rw [m6]; exact hx)
  | (rw [hl4]; exact hx)
  | (rw [hl5]; exact hx)
  | (rw [hl1]; exact hx)
  | (rw [hl2]; exact hx)
  | (rw [hl3]; exact hx)
  | (rw [hl6]; exact hx)

theorem add2_getD (u1 u2 u3 : List ℚ) (n : ℕ) (hl1 : u1.length = n)
    (hl2 : u2.length = n) (hl3 : u3.length = n) (x : ℕ) (hx : x < n) :
    (addL (addL u1 u2) u3).getD x 0 =
      u1.getD x 0 + u2.getD x 0 + u3.getD x 0 := by
  have a12 : (addL u1 u2).length = n := by
    rw [length_addL, hl1, hl2]
    simp
  rw [getD_addL, getD_addL]
  all_goals first
  | (rw [a12]; exact hx)
  | (rw [hl1]; exact hx)
  | (rw [hl2]; exact hx)
  | (rw [hl3]; exact hx)

theorem combine_getD (nb : NumBackend) (a : SignalArrays) (n : ℕ)
    (h1 : a.bm.length = n) (h2 : a.tfw.length = n) (h3 : a.tfc.length = n)
    (h4 : a.fname.length = n) (h5 : a.code.length = n)
    (h6 : a.fuzzy.length = n) (x : ℕ) (hx : x < n) :
    (combine_scores nb a).getD x 0 =
      0.60 * (zList nb a.bm).getD x 0 + 0.56 * (zList nb a.tfw).getD x 0 +
      0.22 * (zList nb a.tfc).getD x 0 + a.fname.getD x 0 + a.code.getD x 0 +
      0.5 * a.fuzzy.getD x 0 := by
  unfold combine_scores
  exact comb_core 0.60 0.56 0.22 0.5 (zList nb a.bm) (zList nb a.tfw)
    (zList nb a.tfc) a.fname a.code a.fuzzy n
    (by rw [length_zList, h1]) (by rw [length_zList, h2])
    (by rw [length_zList, h3]) h4 h5 h6 x hx

theorem hybrid_getD (nb : NumBackend) (sn : Snapshot) (q : String)
    (role sector : Option String) (hwf : WF sn) (x : ℕ)
    (hx : x < sn.DOCS.length) :
    (score_hybrid_single nb sn q role sector).getD x 0 =
      (combine_scores nb (score_arrays_for_query nb sn q)).getD x 0 +
      roleSectorBias role sector (sn.DOCS.getD x dummyChunk).filename +
      intentBias (intent_from_query q).1 (intent_from_query q).2
        (sn.DOCS.getD x dummyChunk).filename := by
  obtain ⟨ha1, ha2, ha3, ha4, ha5, ha6⟩ := length_arrays nb sn q hwf
  unfold score_hybrid_single
  rw [add2_getD (combine_scores nb (score_arrays_for_query nb sn q))
      (sn.DOCS.map (fun r => roleSectorBias role sector r.filename))
      (sn.DOCS.map (fun r => intentBias (intent_from_query q).1
        (intent_from_query q).2 r.filename)) sn.DOCS.length
      (length_combine nb _ _ ha1 ha2 ha3 ha4 ha5 ha6) (by simp) (by simp)
      x hx,
    getD_map_docs (fun (r : ChunkRow) =>
      roleSectorBias role sector r.filename) sn.DOCS x hx,
    getD_map_docs (fun (r : ChunkRow) => intentBias (intent_from_query q).1
      (intent_from_query q).2 r.filename) sn.DOCS x hx,
    chunkRow_default]

theorem bm_getD_congr (nb : NumBackend) (sn : Snapshot) (q : String)
    (i j : ℕ)
    (hbm : ∀ bk, sn.backends = some bk → ∀ ts,
      (bk.bmScores ts).getD i 0 = (bk.bmScores ts).getD j 0) :
    (score_arrays_for_query nb sn q).bm.getD i 0
      = (score_arrays_for_query nb sn q).bm.getD j 0 := by
  unfold score_arrays_for_query
  cases hbk : sn.backends with
  | none =>
    simp only
    rw [getD_zeros, getD_zeros]
  | some bk =>
    simp only
    split
    · rw [getD_zeros, getD_zeros]
    · exact hbm bk hbk _

theorem tfw_getD_congr (nb : NumBackend) (sn : Snapshot) (q : String)
    (i j : ℕ)
    (htw : ∀ bk, sn.backends = some bk → ∀ s,
      (bk.wordSim s).getD i 0 = (bk.wordSim s).getD j 0) :
    (score_arrays_for_query nb sn q).tfw.getD i 0
      = (score_arrays_for_query nb sn q).tfw.getD j 0 := by
  unfold score_arrays_for_query
  cases hbk : sn.backends with
  | none =>
    simp only
    rw [getD_zeros, getD_zeros]
  | some bk =>
    simp only
    exact htw bk hbk _

theorem tfc_getD_congr (nb : NumBackend) (sn : Snapshot) (q : String)
    (i j : ℕ)
    (htc : ∀ bk, sn.backends = some bk → ∀ s,
      (bk.charSim s).getD i 0 = (bk.charSim s).getD j 0) :
    (score_arrays_for_query nb sn q).tfc.getD i 0
      = (score_arrays_for_query nb sn q).tfc.getD j 0 := by
  unfold score_arrays_for_query
  cases hbk : sn.backends with
  | none =>
    simp only
    rw [getD_zeros, getD_zeros]
  | some bk =>
    simp only
    exact htc bk hbk _

theorem fname_getD_congr (nb : NumBackend) (sn : Snapshot) (q : String)
    (i j : ℕ) (hi : i < sn.FILEN_TOKS.length) (hj : j < sn.FILEN_TOKS.length)
    (hft : sn.FILEN_TOKS.getD i [] = sn.FILEN_TOKS.getD j []) :
    (score_arrays_for_query nb sn q).fname.getD i 0
      = (score_arrays_for_query nb sn q).fname.getD j 0 := by
  unfold score_arrays_for_query
  simp only
  rw [getD_map_docs _ _ _ hi, getD_map_docs _ _ _ hj]
  have hd : (default : List String) = [] := rfl
  rw [hd, hft]

theorem code_getD_eq (nb : NumBackend) (sn : Snapshot) (q : String)
    (i : ℕ) (hi : i < sn.CODES.length) :
    (score_arrays_for_query nb sn q).code.getD i 0
      = codeBoost nb (extract_codes q) (sn.CODES.getD i []) := by
  unfold score_arrays_for_query
  simp only
  rw [getD_map_docs _ _ _ hi]
  have hd : (default : List String) = [] := rfl
  rw [hd]

theorem fuzzy_getD_congr (nb : NumBackend) (sn : Snapshot) (q : String)
    (i j : ℕ) (hi : i < sn.DOCS.length) (hj : j < sn.DOCS.length)
    (hfn : (sn.DOCS.getD i dummyChunk).filename
      = (sn.DOCS.getD j dummyChunk).filename) :
    (score_arrays_for_query nb sn q).fuzzy.getD i 0
      = (score_arrays_for_query nb sn q).fuzzy.getD j 0 := by
  unfold score_arrays_for_query
  simp only
  split
  · rw [getD_map_docs _ _ _ hi, getD_map_docs _ _ _ hj]
    simp only [chunkRow_default]
    rw [hfn]
  · rw [getD_zeros, getD_zeros]

theorem WF_c1snap : WF c1snap := by
  refine ⟨rfl, rfl, rfl, ?_⟩
  intro bk hbk
  cases hbk
  exact ⟨fun _ => rfl, fun _ => rfl, fun _ => rfl⟩

/-- C1: for every query, numeric backend and well-formed snapshot, if two
indexed chunks agree on filename, filename tokens and all per-chunk backend
signal outputs, and the first chunk's code set is exactly the second's plus a
code extracted from the query that the second lacks, then the fused hybrid
score (weighted z-scored BM25/word/char signals plus filename, code-boost,
fuzzy, role/sector and intent terms) of the first chunk is strictly greater
than that of the second. -/
theorem C1_code_boost_dominates (nb : NumBackend) (sn : Snapshot) (q : String)
    (role sector : Option String) (hwf : WF sn) (i j : ℕ)
    (hi : i < sn.DOCS.length) (hj : j < sn.DOCS.length)
    (hfn : (sn.DOCS.getD i dummyChunk).filename
      = (sn.DOCS.getD j dummyChunk).filename)
    (hft : sn.FILEN_TOKS.getD i [] = sn.FILEN_TOKS.getD j [])
    (hbm : ∀ bk, sn.backends = some bk → ∀ ts,
      (bk.bmScores ts).getD i 0 = (bk.bmScores ts).getD j 0)
    (htw : ∀ bk, sn.backends = some bk → ∀ s,
      (bk.wordSim s).getD i 0 = (bk.wordSim s).getD j 0)
    (htc : ∀ bk, sn.backends = some bk → ∀ s,
      (bk.charSim s).getD i 0 = (bk.charSim s).getD j 0)
    (qc : String) (hqc : qc ∈ extract_codes q)
    (hcode : sn.CODES.getD i [] = qc :: sn.CODES.getD j [])
    (hnot : qc ∉ sn.CODES.getD j []) :
    (score_hybrid_single nb sn q role sector).getD j 0 <
      (score_hybrid_single nb sn q role sector).getD i 0 := by
  have hfL : sn.FILEN_TOKS.length = sn.DOCS.length := hwf.2.1
  have hcL : sn.CODES.length = sn.DOCS.length := hwf.2.2.1
  obtain ⟨ha1, ha2, ha3, ha4, ha5, ha6⟩ := length_arrays nb sn q hwf
  have hiF : i < sn.FILEN_TOKS.length := by rw [hfL]; exact hi
  have hjF : j < sn.FILEN_TOKS.length := by rw [hfL]; exact hj
  have hiC : i < sn.CODES.length := by rw [hcL]; exact hi
  have hjC : j < sn.CODES.length := by rw [hcL]; exact hj
  have hib : i < (score_arrays_for_query nb sn q).bm.length := by
    rw [ha1]; exact hi
  have hjb : j < (score_arrays_for_query nb sn q).bm.length := by
    rw [ha1]; exact hj
  have hiw : i < (score_arrays_for_query nb sn q).tfw.length := by
    rw [ha2]; exact hi
  have hjw : j < (score_arrays_for_query nb sn q).tfw.length := by
    rw [ha2]; exact hj
  have hic : i < (score_arrays_for_query nb sn q).tfc.length := by
    rw [ha3]; exact hi
  have hjc : j < (score_arrays_for_query nb sn q).tfc.length := by
    rw [ha3]; exact hj
  have hzbm := zList_getD_congr nb (score_arrays_for_query nb sn q).bm i j
    hib hjb (bm_getD_congr nb sn q i j hbm)
  have hztw := zList_getD_congr nb (score_arrays_for_query nb sn q).tfw i j
    hiw hjw (tfw_getD_congr nb sn q i j htw)
  have hztc := zList_getD_congr nb (score_arrays_for_query nb sn q).tfc i j
    hic hjc (tfc_getD_congr nb sn q i j htc)
  have hfne := fname_getD_congr nb sn q i j hiF hjF hft
  have hfz := fuzzy_getD_congr nb sn q i j hi hj hfn
  have hcodei := code_getD_eq nb sn q i hiC
  have hcodej := code_getD_eq nb sn q j hjC
  have hlt : codeBoost nb (extract_codes q) (sn.CODES.getD j [])
      < codeBoost nb (extract_codes q) (sn.CODES.getD i []) := by
    rw [hcode]
    exact codeBoost_lt nb (extract_codes q) _ qc hqc hnot
  have ei := hybrid_getD nb sn q role sector hwf i hi
  have ej := hybrid_getD nb sn q role sector hwf j hj
  have ci := combine_getD nb (score_arrays_for_query nb sn q)
    sn.DOCS.length ha1 ha2 ha3 ha4 ha5 ha6 i hi
  have cj := combine_getD nb (score_arrays_for_query nb sn q)
    sn.DOCS.length ha1 ha2 ha3 ha4 ha5 ha6 j hj
  rw [ei, ej, ci, cj, hfn, hzbm, hztw, hztc, hfne, hfz, hcodei, hcodej]
  have hstep : ∀ u1 u2 u3 u4 u6 u7 u8 ci' cj' : ℚ, cj' < ci' →
      u1 + u2 + u3 + u4 + cj' + u6 + u7 + u8 <
      u1 + u2 + u3 + u4 + ci' + u6 + u7 + u8 := by
    intro u1 u2 u3 u4 u6 u7 u8 ci' cj' h
    linarith
  exact hstep _ _ _ _ _ _ _ _ _ hlt

/-- C1 witness: on the two-chunk fixture and the query "SOP 1234", the chunk
holding `QD-SOP-001234` strictly outranks the code-free chunk. -/
theorem C1_code_boost_dominates_witness :
    (score_hybrid_single c1nb c1snap "SOP 1234" none none).getD 1 0 <
      (score_hybrid_single c1nb c1snap "SOP 1234" none none).getD 0 0 :=
  C1_code_boost_dominates c1nb c1snap "SOP 1234" none none WF_c1snap 0 1
    (by decide) (by decide) rfl rfl
    (fun bk hbk ts => by cases hbk; rfl)
    (fun bk hbk s => by cases hbk; rfl)
    (fun bk hbk s => by cases hbk; rfl)
    "QD-SOP-001234" (by decide!) rfl (by decide)

theorem length_addUnique_le (l : List String) (x : String) :
    (addUnique l x).length ≤ l.length + 1 := by
  unfold addUnique
  split
  · omega
  · simp

theorem length_addAllUnique_le (l : List String) (xs : List String) :
    (addAllUnique l xs).length ≤ l.length + xs.length := by
  induction xs generalizing l with
  | nil => simp [addAllUnique]
  | cons y ys ih =>
    simp only [addAllUnique, List.foldl_cons] at *
    calc (ys.foldl addUnique (addUnique l y)).length
        ≤ (addUnique l y).length + ys.length := ih (addUnique l y)
      _ ≤ l.length + 1 + ys.length := by
          have := length_addUnique_le l y
          omega
      _ = l.length + (y :: ys).length := by simp; omega

theorem length_firstDedup_le (xs : List String) :
    (firstDedup xs).length ≤ xs.length := by
  have := length_addAllUnique_le [] xs
  simpa [firstDedup] using this

theorem length_filterMap_of_isSome {α β : Type} (f : α → Option β)
    (l : List α) (h : ∀ x ∈ l, (f x).isSome = true) :
    (l.filterMap f).length = l.length := by
  induction l with
  | nil => rfl
  | cons a as ih =>
    have ha := h a (by simp)
    cases hfa : f a with
    | none => rw [hfa] at ha; simp at ha
    | some b =>
      rw [List.filterMap_cons, hfa]
      simp only [List.length_cons]
      rw [ih (fun x hx => h x (by simp [hx]))]

theorem length_aggregate (nb : NumBackend) (store : Store) (sn : Snapshot)
    (q : String) (role sector : Option String) (nt : Option (List String))
    (hwf : WF sn) :
    (aggregate_over_subqueries nb store sn q role sector nt).length
      = sn.DOCS.length := by
  unfold aggregate_over_subqueries
  exact (foldl_addL_spec (fun s => score_hybrid_single nb sn s role sector)
    sn.DOCS.length (fun s => length_score_hybrid nb sn s role sector hwf)
    _ (zeros sn.DOCS.length) (length_zeros _)).1

theorem length_topIdxDesc (S : List ℚ) (kp : ℕ) :
    (topIdxDesc S kp).length = min kp S.length := by
  unfold topIdxDesc
  rw [List.length_take, length_sortDescBy, List.length_range]

theorem mem_topIdxDesc (S : List ℚ) (kp : ℕ) (i : ℕ)
    (h : i ∈ topIdxDesc S kp) : i < S.length := by
  unfold topIdxDesc at h
  have h2 := List.mem_of_mem_take h
  rw [mem_sortDescBy] at h2
  exact List.mem_range.mp h2

theorem length_blendNoCE (items : List Candidate) :
    (blendNoCE items).length = items.length := by
  unfold blendNoCE
  rw [length_sortDescBy, List.length_map]

theorem mem_blendNoCE (items : List Candidate) (it : Candidate)
    (h : it ∈ blendNoCE items) :
    ∃ it0 ∈ items, it.chunk_id = it0.chunk_id := by
  unfold blendNoCE at h
  rw [mem_sortDescBy] at h
  obtain ⟨it0, h0, heq⟩ := List.mem_map.mp h
  exact ⟨it0, h0, by rw [← heq]⟩

theorem mmr_two_stage_length (nb : NumBackend) (sn : Snapshot)
    (items : List Candidate) (k : ℕ) (q : String)
    (hres : ∀ it ∈ items, ∃ r, r ∈ sn.DOCS ∧ r.chunk_id = it.chunk_id)
    (hk24 : items.length ≤ MMR_LIMIT_CHUNK) :
    (mmr_two_stage nb sn items k q).length = min k items.length := by
  unfold mmr_two_stage
  cases hbk : sn.backends with
  | none => simp
  | some bk =>
    simp only
    by_cases hemp : items.isEmpty = true
    · rw [if_pos hemp]
      simp
    · rw [if_neg hemp]
      set ridx := fun (it : Candidate) =>
        sn.DOCS.findIdx? (fun d => d.chunk_id == it.chunk_id) with hridx
      set found := items.filterMap (fun it =>
        (ridx it).map (fun i => (it.doc_id, i))) with hfound
      set docs := firstDedup (found.map (fun p => p.1)) with hdocs
      set repRows := docs.map (fun d =>
        (((found.filter (fun p => p.1 == d)).head?).map (fun p => p.2)).getD 0)
        with hrep
      set docRowvecs := repRows.map (fun i => bk.rowVecs.getD i []) with hdrv
      set qvec := bk.wordQueryVec (norm q) with hqvec
      set qnorm := nb.sqrt ((qvec.map (fun x => x ^ 2)).sum) + 1 / 10 ^ 12
        with hqn
      set qv := qvec.map (fun x => x / qnorm) with hqv
      set keepIdx := mmr_from_rows docRowvecs qv MMR_LAMBDA_DOC
        (min MMR_LIMIT_DOC docs.length) with hki
      set keepDocs := keepIdx.map (fun i => docs.getD i "") with hkd
      set keptItems := items.filter (fun it => keepDocs.contains it.doc_id)
        with hkI
      set keptRows := keptItems.filterMap ridx with hkR
      have hsome : ∀ it ∈ items, (ridx it).isSome = true := by
        intro it hit
        obtain ⟨r, hr, hc⟩ := hres it hit
        rw [hridx]
        simp only
        rw [List.findIdx?_isSome, List.any_eq_true]
        exact ⟨r, hr, by simp [hc]⟩
      have hdmem : ∀ it ∈ items, it.doc_id ∈ docs := by
        intro it hit
        rw [hdocs, mem_firstDedup]
        have hs := hsome it hit
        cases hio : ridx it with
        | none => rw [hio] at hs; simp at hs
        | some i0 =>
          refine List.mem_map.mpr ⟨(it.doc_id, i0), ?_, rfl⟩
          rw [hfound]
          exact List.mem_filterMap.mpr ⟨it, hit, by rw [hio]; rfl⟩
      have hdlen : docs.length ≤ items.length := by
        rw [hdocs]
        calc (firstDedup (found.map (fun p => p.1))).length
            ≤ (found.map (fun p => p.1)).length := length_firstDedup_le _
          _ = found.length := by rw [List.length_map]
          _ ≤ items.length := by rw [hfound]; exact List.length_filterMap_le _ _
      have hdrvlen : docRowvecs.length = docs.length := by
        rw [hdrv, List.length_map, hrep, List.length_map]
      have hcomp := mmr_from_rows_complete docRowvecs qv MMR_LAMBDA_DOC
        (min MMR_LIMIT_DOC docs.length)
        (by
          rw [hdrvlen]
          exact le_min (le_trans hdlen (le_trans hk24 (by decide)))
            (le_refl _))
      have hkdmem : ∀ d ∈ docs, d ∈ keepDocs := by
        intro d hd
        obtain ⟨i, hi, hgi⟩ := List.getElem_of_mem hd
        rw [hkd]
        refine List.mem_map.mpr ⟨i, ?_, ?_⟩
        · rw [hki]; exact hcomp i (by rw [hdrvlen]; exact hi)
        · rw [List.getD_eq_getElem _ _ hi, hgi]
      have hkeq : keptItems = items := by
        rw [hkI]
        exact List.filter_eq_self.mpr (fun it hit =>
          List.elem_iff.mpr (hkdmem it.doc_id (hdmem it hit)))
      have hkRlen : keptRows.length = items.length := by
        rw [hkR, hkeq]
        exact length_filterMap_of_isSome _ _ hsome
      have hipos : 0 < items.length := by
        cases hil : items with
        | nil => rw [hil] at hemp; simp at hemp
        | cons a as => simp [hil]
      have hkRne : ¬ (keptRows.isEmpty = true) := by
        cases hkr : keptRows with
        | nil => rw [hkr] at hkRlen; simp at hkRlen; omega
        | cons a as => simp
      rw [if_neg hkRne]
      have hspec := (mmr_from_rows_spec (keptRows.map
        (fun i => bk.rowVecs.getD i [])) qv MMR_LAMBDA_CHUNK
        (min MMR_LIMIT_CHUNK keptItems.length)).1
      rw [List.length_take, List.length_map, hspec, List.length_map,
        hkRlen, hkeq]
      have h24 : MMR_LIMIT_CHUNK = 24 := rfl
      rw [h24] at hk24 ⊢
      omega

theorem deep_candidates_length (nb : NumBackend) (store : Store)
    (sn : Snapshot) (q : String) (k : ℕ) (role sector : Option String)
    (nt : Option (List String)) (hwf : WF sn) (hk1 : 1 ≤ k)
    (hk24 : k ≤ MMR_LIMIT_CHUNK) (hkd : k ≤ sn.DOCS.length) :
    (deep_candidates nb store sn q k role sector nt).length = k := by
  unfold deep_candidates
  have hb : (if RERANK_ENABLED then max k RERANK_KEEP else k) = k := rfl
  rw [hb]
  set S := aggregate_over_subqueries nb store sn q role sector nt with hS
  have hSlen : S.length = sn.DOCS.length := by
    rw [hS]; exact length_aggregate nb store sn q role sector nt hwf
  have hS0 : ¬ (S.length = 0) := by omega
  rw [if_neg hS0]
  lift_lets
  extract_lets kprime prelim withCov blended diversified
  have hkpk : kprime = k := by
    have he : kprime = (k ⊔ 1) ⊓ S.length := rfl
    rw [he, Nat.max_eq_left hk1, Nat.min_eq_left (by omega)]
  have hplen : prelim.length = k := by
    have he : prelim = List.map (mkCandidate sn S) (topIdxDesc S kprime) := rfl
    rw [he, List.length_map, length_topIdxDesc, hkpk,
      Nat.min_eq_left (by omega)]
  have hwlen : withCov.length = prelim.length := List.length_map _ _
  have hblen : blended.length = k := by
    have he : blended = blendNoCE withCov := rfl
    rw [he, length_blendNoCE, hwlen, hplen]
  have hres : ∀ it ∈ blended, ∃ r, r ∈ sn.DOCS ∧ r.chunk_id = it.chunk_id := by
    intro it hit
    have he : blended = blendNoCE withCov := rfl
    rw [he] at hit
    obtain ⟨it1, hit1, hcid⟩ := mem_blendNoCE withCov it hit
    obtain ⟨it2, hit2, heq1⟩ := List.mem_map.mp hit1
    obtain ⟨i, hiT, heq2⟩ := List.mem_map.mp hit2
    have hiS : i < S.length := mem_topIdxDesc S kprime i hiT
    have hiD : i < sn.DOCS.length := by omega
    refine ⟨sn.DOCS.getD i dummyChunk, getD_mem _ _ _ hiD, ?_⟩
    rw [hcid, ← heq1, ← heq2]
    rfl
  have hbfalse : blended.isEmpty = false := by
    cases hbl : blended with
    | nil => rw [hbl] at hblen; simp at hblen; omega
    | cons a as => rfl
  have hdiv : diversified = mmr_two_stage nb sn blended k q := by
    have he : diversified = if DEEP_ON && !blended.isEmpty then
        mmr_two_stage nb sn blended k q else blended := rfl
    rw [he, hbfalse]
    rfl
  rw [List.length_take, hdiv,
    mmr_two_stage_length nb sn blended k q hres (by rw [hblen]; exact hk24),
    hblen, Nat.min_self, Nat.min_self]

theorem search_ok_items (nb : NumBackend) (bk : Backends) (store : Store)
    (cur : Snapshot) (req : SearchReq) (resp : SearchResp)
    (hok : search nb bk store cur req = Except.ok resp) :
    ∃ sn nt, ensure_index cur bk store = Except.ok sn ∧
      resp.items.length = min (kClamp req.k)
        (deep_candidates nb store sn (normalize_codes req.query)
          (kClamp req.k) req.role req.sector (some nt)).length := by
  cases hens : ensure_index cur bk store with
  | error e =>
    unfold search at hok
    rw [hens] at hok
    exact Except.noConfusion hok
  | ok sn =>
    unfold search at hok
    rw [hens] at hok
    injection hok with h
    refine ⟨sn, (if ((req.next_terms.getD []).take 5).isEmpty then
        predict_next_terms (normalize_codes req.query) none 5
      else (req.next_terms.getD []).take 5), rfl, ?_⟩
    rw [← h]
    simp only
    rw [List.length_take, List.length_map]
    have hr : (if RERANK_ENABLED then kClamp req.k ⊔ RERANK_KEEP
        else kClamp req.k) = kClamp req.k := rfl
    rw [hr]

theorem WF_c6snap : WF c6snap := by
  refine ⟨rfl, rfl, rfl, ?_⟩
  intro bk hbk
  cases hbk
  exact ⟨fun _ => rfl, fun _ => rfl, fun _ => rfl⟩

theorem c6hok : search c1nb c6bk exStoreEmpty c6snap c6req =
    Except.ok c6resp := rfl

/-- C6: every successful `/search` response has at most `kClamp req.k` items,
the clamp sends `k=5` to `10` and `k=10000` to `200`, and a request with
`k=5` against a well-formed snapshot holding at least ten chunks gets back
exactly ten items. -/
theorem C6_k_clamping (nb : NumBackend) (bk : Backends) (store : Store)
    (cur : Snapshot) (req : SearchReq) (resp : SearchResp)
    (hok : search nb bk store cur req = Except.ok resp) :
    kClamp (some 5) = 10 ∧ kClamp (some 10000) = 200 ∧
    resp.items.length ≤ kClamp req.k ∧
    (req.k = some 5 → WF cur → 10 ≤ cur.DOCS.length →
      resp.items.length = 10) := by
  obtain ⟨sn, nt, hens, hlen⟩ := search_ok_items nb bk store cur req resp hok
  refine ⟨by decide, by decide, ?_, ?_⟩
  · rw [hlen]; exact Nat.min_le_left _ _
  · intro hk5 hwf h10
    have hne : cur.DOCS.isEmpty = false := by
      cases hd : cur.DOCS with
      | nil => rw [hd] at h10; simp at h10
      | cons a as => rfl
    have hsn : sn = cur := by
      unfold ensure_index at hens
      rw [hne] at hens
      simp at hens
      exact hens.symm
    have hkc : kClamp req.k = 10 := by rw [hk5]; decide
    rw [hlen, hkc, hsn,
      deep_candidates_length nb store cur (normalize_codes req.query) 10
        req.role req.sector (some nt) hwf (by decide) (by decide) h10,
      Nat.min_self]

/-- C6 witness: on the ten-chunk fixture, requesting `k=5` yields exactly ten
items and never more than the clamped bound. -/
theorem C6_k_clamping_witness :
    kClamp (some 5) = 10 ∧ kClamp (some 10000) = 200 ∧
    c6resp.items.length ≤ kClamp c6req.k ∧ c6resp.items.length = 10 := by
  obtain ⟨h1, h2, h3, h4⟩ := C6_k_clamping c1nb c6bk exStoreEmpty c6snap
    c6req c6resp c6hok
  exact ⟨h1, h2, h3, h4 rfl WF_c6snap (by decide)⟩

theorem digit_facts (c : Char)
    (h : c ∈ ['0','1','2','3','4','5','6','7','8','9']) :
    c.isDigit = true ∧ isWordChar c = true ∧ ciEq c 'N' = false ∧
    ciEq c 'I' = false ∧ isSpaceChar c = false ∧ c ≠ '-' ∧
    c ≠ '_' ∧ c ≠ '.' := by
  fin_cases h <;> exact ⟨by decide, by decide, by decide, by decide,
    by decide, by decide, by decide, by decide⟩

theorem scanSub_nil (m : Option Char → List Char → Option (List Char × ℕ))
    (fuel : ℕ) (prev : Option Char) : scanSub m fuel prev [] = [] := by
  cases fuel with
  | zero => rfl
  | succ k => rfl

theorem scanSub_cons_match (m : Option Char → List Char → Option (List Char × ℕ))
    (fuel : ℕ) (prev : Option Char) (c : Char) (cs : List Char) :
    scanSub m (fuel + 1) prev (c :: cs) =
      match m prev (c :: cs) with
      | some (rep, n) =>
        rep ++ scanSub m fuel (lastOfTake prev (c :: cs) n) ((c :: cs).drop n)
      | none => c :: scanSub m fuel (some c) cs := rfl

theorem runSub_total (m : Option Char → List Char → Option (List Char × ℕ))
    (c : Char) (cs : List Char) (rep : List Char)
    (hm : m none (c :: cs) = some (rep, cs.length + 1)) :
    runSub m (c :: cs) = rep := by
  unfold runSub
  show scanSub m (cs.length + 1) none (c :: cs) = rep
  rw [scanSub_cons_match, hm]
  simp only
  have hd : (c :: cs).drop (cs.length + 1) = [] := by
    rw [show cs.length + 1 = (c :: cs).length from rfl, List.drop_length]
  rw [hd, scanSub_nil, List.append_nil]

theorem scanSub_none (m : Option Char → List Char → Option (List Char × ℕ)) :
    ∀ (fuel : ℕ) (l : List Char) (prev : Option Char),
    (∀ i, i < l.length →
      m (if i = 0 then prev else some (l.getD (i - 1) ' ')) (l.drop i) = none) →
    scanSub m fuel prev l = l := by
  intro fuel
  induction fuel with
  | zero => intro l prev _; rfl
  | succ k ih =>
    intro l prev h
    cases l with
    | nil => rfl
    | cons c cs =>
      rw [scanSub_cons_match]
      have h0 : m prev (c :: cs) = none := by
        have hh := h 0 (by simp)
        simpa using hh
      rw [h0]
      simp only
      rw [ih cs (some c) ?_]
      intro i hi
      have hsucc := h (i + 1) (by simp; omega)
      cases i with
      | zero => simpa using hsucc
      | succ j => simpa using hsucc

theorem sop_match_canonical (d1 d2 d3 d4 d5 d6 : Char)
    (h1 : d1.isDigit = true) (h2 : d2.isDigit = true) (h3 : d3.isDigit = true)
    (h4 : d4.isDigit = true) (h5 : d5.isDigit = true)
    (h6 : d6.isDigit = true) :
    sopSubM none ['Q','D','-','S','O','P','-',d1,d2,d3,d4,d5,d6] =
      some (['Q','D','-','S','O','P','-',d1,d2,d3,d4,d5,d6], 13) := by
  unfold sopSubM trySopNum
  simp +decide [boundaryAt, stripCI, ciEq, upAscii, sopNumAfter, sopDigits,
    isSpaceChar, h1, h2, h3, h4, h5, h6, zfill6, isWordChar,
    show List.range 7 = [0,1,2,3,4,5,6] from rfl]

theorem nline_runSub_canonical (d1 d2 d3 d4 d5 d6 : Char)
    (hm1 : d1 ∈ ['0','1','2','3','4','5','6','7','8','9'])
    (hm2 : d2 ∈ ['0','1','2','3','4','5','6','7','8','9'])
    (hm3 : d3 ∈ ['0','1','2','3','4','5','6','7','8','9'])
    (hm4 : d4 ∈ ['0','1','2','3','4','5','6','7','8','9'])
    (hm5 : d5 ∈ ['0','1','2','3','4','5','6','7','8','9'])
    (hm6 : d6 ∈ ['0','1','2','3','4','5','6','7','8','9']) :
    runSub nlineSubM ['Q','D','-','S','O','P','-',d1,d2,d3,d4,d5,d6] =
      ['Q','D','-','S','O','P','-',d1,d2,d3,d4,d5,d6] := by
  obtain ⟨hd1, hw1, hn1, hi1, hs1, hh1, hu1, hp1⟩ := digit_facts d1 hm1
  obtain ⟨hd2, hw2, hn2, hi2, hs2, hh2, hu2, hp2⟩ := digit_facts d2 hm2
  obtain ⟨hd3, hw3, hn3, hi3, hs3, hh3, hu3, hp3⟩ := digit_facts d3 hm3
  obtain ⟨hd4, hw4, hn4, hi4, hs4, hh4, hu4, hp4⟩ := digit_facts d4 hm4
  obtain ⟨hd5, hw5, hn5, hi5, hs5, hh5, hu5, hp5⟩ := digit_facts d5 hm5
  obtain ⟨hd6, hw6, hn6, hi6, hs6, hh6, hu6, hp6⟩ := digit_facts d6 hm6
  unfold runSub
  apply scanSub_none
  intro i hi
  simp only [List.length_cons, List.length_nil] at hi
  interval_cases i <;>
    simp +decide [nlineSubM, tryNline, nlineBase, nlineTail, nlineSuffix,
      boundaryAt, List.takeWhile_cons,
      (by decide : isWordChar 'Q' = true), (by decide : isWordChar 'D' = true),
      (by decide : isWordChar 'S' = true), (by decide : isWordChar 'O' = true),
      (by decide : isWordChar 'P' = true), (by decide : isWordChar '-' = false),
      (by decide : ciEq 'Q' 'N' = false), (by decide : ciEq '-' 'N' = false),
      (by decide : ciEq 'S' 'N' = false),
      (by decide : isSpaceChar 'Q' = false),
      (by decide : isSpaceChar '-' = false),
      (by decide : isSpaceChar 'S' = false),
      hd1, hw1, hn1, hs1, hh1, hu1, hd2, hw2, hs2, hd3, hw3, hs3,
      hd4, hw4, hs4, hd5, hw5, hs5, hh5, hu5, hd6, hw6, hs6]

theorem tryIdr_bnd_false (prev : Option Char) (l : List Char)
    (h : boundaryAt prev l.head? = false) : tryIdr prev l = none := by
  unfold tryIdr
  rw [h]
  rfl

theorem tryIdr_none_of_not_I (prev : Option Char) (c : Char) (cs : List Char)
    (h : ciEq c 'I' = false) : tryIdr prev (c :: cs) = none := by
  have hne : ¬ (ciEq c 'I' = true) := by rw [h]; exact Bool.false_ne_true
  unfold tryIdr
  split
  · rfl
  · dsimp only
    rw [if_neg hne]

theorem idr_runSub_canonical (d1 d2 d3 d4 d5 d6 : Char)
    (hm1 : d1 ∈ ['0','1','2','3','4','5','6','7','8','9'])
    (hm2 : d2 ∈ ['0','1','2','3','4','5','6','7','8','9'])
    (hm3 : d3 ∈ ['0','1','2','3','4','5','6','7','8','9'])
    (hm4 : d4 ∈ ['0','1','2','3','4','5','6','7','8','9'])
    (hm5 : d5 ∈ ['0','1','2','3','4','5','6','7','8','9'])
    (hm6 : d6 ∈ ['0','1','2','3','4','5','6','7','8','9']) :
    runSub idrSubM ['Q','D','-','S','O','P','-',d1,d2,d3,d4,d5,d6] =
      ['Q','D','-','S','O','P','-',d1,d2,d3,d4,d5,d6] := by
  obtain ⟨hd1, hw1, hn1, hi1, hs1, hh1, hu1, hp1⟩ := digit_facts d1 hm1
  obtain ⟨hd2, hw2, hn2, hi2, hs2, hh2, hu2, hp2⟩ := digit_facts d2 hm2
  obtain ⟨hd3, hw3, hn3, hi3, hs3, hh3, hu3, hp3⟩ := digit_facts d3 hm3
  obtain ⟨hd4, hw4, hn4, hi4, hs4, hh4, hu4, hp4⟩ := digit_facts d4 hm4
  obtain ⟨hd5, hw5, hn5, hi5, hs5, hh5, hu5, hp5⟩ := digit_facts d5 hm5
  obtain ⟨hd6, hw6, hn6, hi6, hs6, hh6, hu6, hp6⟩ := digit_facts d6 hm6
  unfold runSub
  apply scanSub_none
  intro i hi
  simp only [List.length_cons, List.length_nil] at hi
  interval_cases i <;>
    simp +decide [idrSubM, tryIdr_bnd_false, tryIdr_none_of_not_I,
      boundaryAt, hw1, hw2, hw3, hw4, hw5, hw6, hi1,
      (by decide : ciEq 'Q' 'I' = false), (by decide : ciEq '-' 'I' = false),
      (by decide : ciEq 'S' 'I' = false)]

/-- C3: code canonicalization is idempotent on canonical procedure codes —
for every six-digit body the string `QD-SOP-<digits>` is a fixed point of
`normalize_codes` — and the inputs "SOP 38904", "SOP-038904" and
"QD-SOP38904" all normalize to "QD-SOP-038904", whose renormalization
returns itself. -/
theorem C3_canonicalization :
    (∀ d1 d2 d3 d4 d5 d6 : Char,
      d1 ∈ ['0','1','2','3','4','5','6','7','8','9'] →
      d2 ∈ ['0','1','2','3','4','5','6','7','8','9'] →
      d3 ∈ ['0','1','2','3','4','5','6','7','8','9'] →
      d4 ∈ ['0','1','2','3','4','5','6','7','8','9'] →
      d5 ∈ ['0','1','2','3','4','5','6','7','8','9'] →
      d6 ∈ ['0','1','2','3','4','5','6','7','8','9'] →
      normalize_codes ⟨['Q','D','-','S','O','P','-',d1,d2,d3,d4,d5,d6]⟩ =
        ⟨['Q','D','-','S','O','P','-',d1,d2,d3,d4,d5,d6]⟩) ∧
    normalize_codes "SOP 38904" = "QD-SOP-038904" ∧
    normalize_codes "SOP-038904" = "QD-SOP-038904" ∧
    normalize_codes "QD-SOP38904" = "QD-SOP-038904" ∧
    normalize_codes "QD-SOP-038904" = "QD-SOP-038904" := by
  refine ⟨?_, by decide!, by decide!, by decide!, by decide!⟩
  intro d1 d2 d3 d4 d5 d6 hm1 hm2 hm3 hm4 hm5 hm6
  have hd1 := (digit_facts d1 hm1).1
  have hd2 := (digit_facts d2 hm2).1
  have hd3 := (digit_facts d3 hm3).1
  have hd4 := (digit_facts d4 hm4).1
  have hd5 := (digit_facts d5 hm5).1
  have hd6 := (digit_facts d6 hm6).1
  unfold normalize_codes
  have hdata : (⟨['Q','D','-','S','O','P','-',d1,d2,d3,d4,d5,d6]⟩ :
      String).data = ['Q','D','-','S','O','P','-',d1,d2,d3,d4,d5,d6] := rfl
  rw [hdata,
    runSub_total sopSubM 'Q' ['D','-','S','O','P','-',d1,d2,d3,d4,d5,d6]
      ['Q','D','-','S','O','P','-',d1,d2,d3,d4,d5,d6]
      (sop_match_canonical d1 d2 d3 d4 d5 d6 hd1 hd2 hd3 hd4 hd5 hd6),
    nline_runSub_canonical d1 d2 d3 d4 d5 d6 hm1 hm2 hm3 hm4 hm5 hm6,
    idr_runSub_canonical d1 d2 d3 d4 d5 d6 hm1 hm2 hm3 hm4 hm5 hm6]

/-- C3 witness: idempotence instantiated at the canonical code `123456`. -/
theorem C3_canonicalization_witness :
    normalize_codes "QD-SOP-123456" = "QD-SOP-123456" :=
  C3_canonicalization.1 '1' '2' '3' '4' '5' '6' (by decide) (by decide)
    (by decide) (by decide) (by decide) (by decide)

theorem innerFold_spec (ind : String → String → Bool) (crit : String)
    (docs : List String) : ∀ (g : String → ℕ) (x : String),
    (g x ≤ (docs.foldl (fun g2 d => fun y =>
        if y == d then g2 y + (if ind crit d then 1 else 0) else g2 y) g) x) ∧
    ((x ∈ docs ∧ ind crit x = true) →
      g x < (docs.foldl (fun g2 d => fun y =>
        if y == d then g2 y + (if ind crit d then 1 else 0) else g2 y) g) x) ∧
    (¬ (x ∈ docs ∧ ind crit x = true) →
      (docs.foldl (fun g2 d => fun y =>
        if y == d then g2 y + (if ind crit d then 1 else 0) else g2 y) g) x
        = g x) := by
  induction docs with
  | nil =>
    intro g x
    exact ⟨le_refl _, by simp, fun _ => rfl⟩
  | cons dd ds ih =>
    intro g x
    simp only [List.foldl_cons]
    obtain ⟨ih1, ih2, ih3⟩ := ih (fun y =>
      if y == dd then g y + (if ind crit dd then 1 else 0) else g y) x
    have hstep : g x ≤ (if (x == dd) = true then
        g x + (if ind crit dd then 1 else 0) else g x) := by
      by_cases hc : (x == dd) = true
      · rw [if_pos hc]
        exact Nat.le_add_right _ _
      · rw [if_neg hc]
    refine ⟨le_trans hstep ih1, ?_, ?_⟩
    · rintro ⟨hmem, hind⟩
      rcases List.mem_cons.mp hmem with heq | hmem2
      · have hgx : (if (x == dd) = true then
            g x + (if ind crit dd then 1 else 0) else g x) = g x + 1 := by
          subst heq
          simp [hind]
        have h1 : g x + 1 ≤ List.foldl (fun g2 d => fun y =>
            if y == d then g2 y + (if ind crit d then 1 else 0) else g2 y)
            (fun y => if y == dd then g y + (if ind crit dd then 1 else 0)
              else g y) ds x := by
          rw [← hgx]
          exact ih1
        exact lt_of_lt_of_le (Nat.lt_succ_self (g x)) h1
      · exact lt_of_le_of_lt hstep (ih2 ⟨hmem2, hind⟩)
    · intro hno
      have hno2 : ¬ (x ∈ ds ∧ ind crit x = true) := by
        intro hand
        exact hno ⟨List.mem_cons_of_mem dd hand.1, hand.2⟩
      rw [ih3 hno2]
      by_cases hxd : x = dd
      · have hindx : ind crit x = false := by
          rcases Bool.eq_false_or_eq_true (ind crit x) with hf | ht
          · exact absurd ⟨by rw [hxd]; exact List.mem_cons_self dd ds, hf⟩ hno
          · exact ht
        subst hxd
        simp [hindx]
      · simp [hxd]

theorem coverFold_spec (ind : String → String → Bool) (docs : List String) :
    ∀ (crits : List String) (f : String → ℕ) (x : String),
    (f x ≤ coverFold ind crits docs f x) ∧
    ((∃ crit ∈ crits, x ∈ docs ∧ ind crit x = true) →
      f x < coverFold ind crits docs f x) ∧
    ((¬ ∃ crit ∈ crits, x ∈ docs ∧ ind crit x = true) →
      coverFold ind crits docs f x = f x) := by
  intro crits
  induction crits with
  | nil =>
    intro f x
    refine ⟨le_refl _, ?_, fun _ => rfl⟩
    rintro ⟨c, hc, _⟩
    exact absurd hc (List.not_mem_nil c)
  | cons c cs ih =>
    intro f x
    have hunf : coverFold ind (c :: cs) docs f = coverFold ind cs docs
        (docs.foldl (fun g2 d => fun y =>
          if y == d then g2 y + (if ind c d then 1 else 0) else g2 y) f) :=
      rfl
    obtain ⟨i1, i2, i3⟩ := innerFold_spec ind c docs f x
    obtain ⟨o1, o2, o3⟩ := ih (docs.foldl (fun g2 d => fun y =>
      if y == d then g2 y + (if ind c d then 1 else 0) else g2 y) f) x
    rw [hunf]
    refine ⟨le_trans i1 o1, ?_, ?_⟩
    · rintro ⟨crit, hmem, hx⟩
      rcases List.mem_cons.mp hmem with heq | hcs
      · exact lt_of_lt_of_le (i2 (heq ▸ hx)) o1
      · exact lt_of_le_of_lt i1 (o2 ⟨crit, hcs, hx⟩)
    · intro hno
      have hc1 : ¬ (x ∈ docs ∧ ind c x = true) := by
        intro hand
        exact hno ⟨c, List.mem_cons_self c cs, hand⟩
      have hc2 : ¬ ∃ crit ∈ cs, x ∈ docs ∧ ind crit x = true := by
        rintro ⟨crit, hcs, hand⟩
        exact hno ⟨crit, List.mem_cons_of_mem c hcs, hand⟩
      rw [o3 hc2, i3 hc1]

theorem compareCover_pos_iff (ind : String → String → Bool)
    (crits docs : List String) (x : String) :
    (0 < compareCover ind crits docs x) ↔
      ∃ crit ∈ crits, x ∈ docs ∧ ind crit x = true := by
  unfold compareCover
  obtain ⟨m1, m2, m3⟩ := coverFold_spec ind docs crits (fun _ => 0) x
  constructor
  · intro h
    by_contra hno
    rw [m3 hno] at h
    simp at h
  · intro he
    exact m2 he

theorem label_single (c : ℤ) :
    answerability_label [c] 1 = if 0 < c then "CERTAIN" else "NR" := by
  unfold answerability_label
  by_cases h : 0 < c
  · simp [h]
  · simp [h]

/-- C10: every successful `/compare` response labels each document either
CERTAIN or NR, never PARTIAL — the label is CERTAIN exactly when some
resolved criterion has a nonempty evidence cell for that document (the
endpoint calls the answerability classifier on the single-element list of the
document's total evidence count with need 1). -/
theorem C10_compare_answerability (nb : NumBackend) (bk : Backends)
    (store : Store) (cur : Snapshot) (req : CompareReq) (resp : CompareResp)
    (hok : compare nb bk store cur req = Except.ok resp) :
    ∃ sn, ensure_index cur bk store = Except.ok sn ∧
      ∀ p ∈ resp.answerability,
        (p.2 = "CERTAIN" ∨ p.2 = "NR") ∧
        (p.2 = "CERTAIN" ↔ ∃ crit ∈ resp.criteria,
          (compareCell nb sn req.role req.sector (kpcClamp req.k_per_crit)
            (normalize_codes req.topic) crit p.1).isEmpty = false) := by
  cases hens : ensure_index cur bk store with
  | error e =>
    unfold compare at hok
    rw [hens] at hok
    exact Except.noConfusion hok
  | ok sn =>
    unfold compare at hok
    rw [hens] at hok
    injection hok with h
    refine ⟨sn, rfl, ?_⟩
    intro p hp
    rw [← h] at hp ⊢
    simp only at hp ⊢
    unfold compareAnswerability at hp
    simp only at hp
    obtain ⟨d, hd, hpd⟩ := List.mem_map.mp hp
    rw [← hpd]
    simp only
    rw [label_single]
    have hdm : d ∈ req.doc_ids := (mem_firstDedup req.doc_ids d).mp hd
    set IND := fun crit dd =>
      !(compareCell nb sn req.role req.sector (kpcClamp req.k_per_crit)
        (normalize_codes req.topic) crit dd).isEmpty with hIND
    set CR := compareCrits req (normalize_codes req.topic) with hCR
    set cov := compareCover IND CR req.doc_ids d with hcov
    by_cases hpos : (0:ℤ) < (cov : ℤ)
    · rw [if_pos hpos]
      refine ⟨Or.inl rfl, ?_, fun _ => rfl⟩
      intro _
      have hnat : 0 < cov := by exact_mod_cast hpos
      obtain ⟨crit, hc, _, hind⟩ :=
        (compareCover_pos_iff IND CR req.doc_ids d).mp hnat
      refine ⟨crit, hc, ?_⟩
      have hind2 : (!(compareCell nb sn req.role req.sector
          (kpcClamp req.k_per_crit) (normalize_codes req.topic)
          crit d).isEmpty) = true := by
        rw [hIND] at hind
        exact hind
      simpa using hind2
    · rw [if_neg hpos]
      refine ⟨Or.inr rfl, ?_, ?_⟩
      · intro hC
        exact absurd hC (by decide)
      · rintro ⟨crit, hc, hcell⟩
        have hind : IND crit d = true := by
          rw [hIND]
          simp only
          rw [hcell]
          rfl
        have hnat : 0 < cov :=
          (compareCover_pos_iff IND CR req.doc_ids d).mpr ⟨crit, hc, hdm, hind⟩
        exact absurd (by exact_mod_cast hnat) hpos

/-- C10 witness: on the ten-chunk fixture, document "0" is labeled CERTAIN
and the unknown document "zz" is labeled NR. -/
theorem C10_compare_answerability_witness :
    ∃ sn, ensure_index c6snap c6bk exStoreEmpty = Except.ok sn ∧
      ∀ p ∈ c10resp.answerability,
        (p.2 = "CERTAIN" ∨ p.2 = "NR") ∧
        (p.2 = "CERTAIN" ↔ ∃ crit ∈ c10resp.criteria,
          (compareCell c1nb sn c10req.role c10req.sector
            (kpcClamp c10req.k_per_crit) (normalize_codes c10req.topic)
            crit p.1).isEmpty = false) :=
  C10_compare_answerability c1nb c6bk exStoreEmpty c6snap c10req c10resp rfl
